import Mathlib

/-
Shallow embedding of the Markov-chain feedback core of the ffuf fork
(pkg/markov: markov.go, feedback.go, inputprovider.go).

Modelling conventions:
- Go float64 values are modelled as exact rationals (ℚ); all constants in the
  source (0.1, 0.9, 0.5, 0.8, 0.6, 1.0) are carried exactly.
- Go maps are modelled as association lists with first-match lookup and
  insertion-order append; where the source iterates over a map (whose order Go
  does not specify), the iteration order is passed as an explicit parameter
  constrained to be a permutation of the stored entries.
- Go byte slices are modelled as lists of naturals, raw strings as String.
- The source file markov.go contains two distinct variants of the chain: a
  Q-learning variant over discretized states (namespace QMarkov) and a raw-state
  transition-count variant (namespace RawMarkov); feedback.go builds on the raw
  variant, inputprovider.go on the Q variant, exactly as in the source.
-/

/-- Association-list lookup, first match wins (models Go map read). -/
def alistGet {K β : Type} [DecidableEq K] : List (K × β) → K → Option β
  | [], _ => none
  | (k', v) :: rest, k => if k' = k then some v else alistGet rest k

/-- Association-list write: update the first binding of the key in place, or
append a new binding (models Go map write). -/
def alistSet {K β : Type} [DecidableEq K] : List (K × β) → K → β → List (K × β)
  | [], k, v => [(k, v)]
  | (k', v') :: rest, k, v =>
    if k' = k then (k, v) :: rest else (k', v') :: alistSet rest k v

/-- Increment a numeric binding, starting from zero when missing
(models Go `m[k]++`). -/
def alistIncr {K : Type} [DecidableEq K] (m : List (K × Nat)) (k : K) : List (K × Nat) :=
  alistSet m k (((alistGet m k).getD 0) + 1)

/-- Two-level association-list lookup (models `m[k1][k2]` reads). -/
def alistGet2 {K1 K2 β : Type} [DecidableEq K1] [DecidableEq K2]
    (m : List (K1 × List (K2 × β))) (k1 : K1) (k2 : K2) : Option β :=
  match alistGet m k1 with
  | none => none
  | some row => alistGet row k2

namespace QMarkov

/-- markov.go: `State` of the Q-learning variant
⟨code class, size bucket, depth⟩. -/
structure State where
  CodeClass : String
  SizeBucket : String
  Depth : Int
deriving DecidableEq

/-- markov.go: `State.Hash`, the map key `fmt.Sprintf("%s_%s_%d", ...)`. -/
def State.Hash (s : State) : String :=
  s.CodeClass ++ "_" ++ s.SizeBucket ++ "_" ++ toString s.Depth

/-- markov.go: `Action`, the fuzz token used. -/
structure Action where
  Token : String
deriving DecidableEq

/-- markov.go: `Transition` record (fromState, action, toState, reward). -/
structure Transition where
  FromState : State
  Action : Action
  ToState : State
  Reward : ℚ

/-- markov.go: `MarkovChain` of the Q-learning variant.  Maps are association
lists; the mutex is irrelevant to the functional model. -/
structure MarkovChain where
  QTable : List (String × List (String × ℚ))
  TransitionCounts : List (String × List (String × List (String × Nat)))
  ActionCounts : List (String × List (String × Nat))
  StateCounts : List (String × Nat)
  AvailableActions : List (String × List String)
  Alpha : ℚ
  Gamma : ℚ
  Epsilon : ℚ
  Threshold : ℚ

/-- markov.go: `NewMarkovChain` with the default parameters α=0.1, γ=0.9,
ε=0.1, threshold=0.01. -/
def NewMarkovChain : MarkovChain :=
  { QTable := [], TransitionCounts := [], ActionCounts := [], StateCounts := []
    AvailableActions := [], Alpha := 1/10, Gamma := 9/10, Epsilon := 1/10
    Threshold := 1/100 }

/-- Numeric value of the quantization bucket computed by `QuantizeSize`
(each branch of the source computes this value and then renders it). -/
def quantizeVal (size : Int) : Nat :=
  if size.toNat < 100 then size.toNat / 10 * 10
  else if size.toNat < 1000 then size.toNat / 100 * 100
  else if size.toNat < 10000 then size.toNat / 1000 * 1000
  else size.toNat / 10000 * 10000

/-- markov.go: `QuantizeSize`.  Negative sizes are clamped to 0 (which is what
`Int.toNat` does); each branch rounds down and renders the decimal string. -/
def QuantizeSize (size : Int) : String :=
  if size.toNat < 100 then toString (size.toNat / 10 * 10)
  else if size.toNat < 1000 then toString (size.toNat / 100 * 100)
  else if size.toNat < 10000 then toString (size.toNat / 1000 * 1000)
  else toString (size.toNat / 10000 * 10000)

/-- markov.go: `quantizeSize`, the unexported alias. -/
def quantizeSize (size : Int) : String := QuantizeSize size

/-- markov.go: `GetSizeHash`, FNV-1a 64-bit over the body bytes, rendered as
lowercase hex; empty body hashes to "0". -/
def GetSizeHash (data : List Nat) : String :=
  if data.length = 0 then "0"
  else
    String.mk (Nat.toDigits 16
      (data.foldl (fun h b => ((h ^^^ b) * 1099511628211) % 18446744073709551616)
        14695981039346656037))

/-- inputprovider.go: the `Response` struct (only the fields the markov code
reads are modelled). -/
structure Response where
  StatusCode : Int
  Data : List Nat
  ContentLength : Int
  ContentWords : Int
  ContentLines : Int
deriving DecidableEq

/-- inputprovider.go: `GetStateFromResponseFromResponseStruct`. -/
def GetStateFromResponseFromResponseStruct (resp : Response) (depth : Int) : State :=
  { CodeClass :=
      if 200 ≤ resp.StatusCode ∧ resp.StatusCode < 300 then "2xx"
      else if 300 ≤ resp.StatusCode ∧ resp.StatusCode < 400 then "3xx"
      else if 400 ≤ resp.StatusCode ∧ resp.StatusCode < 500 then "4xx"
      else if 500 ≤ resp.StatusCode ∧ resp.StatusCode < 600 then "5xx"
      else "unknown"
    SizeBucket := quantizeSize resp.ContentLength
    Depth := depth }

/-- inputprovider.go: `CalculateRewardFromResponseStruct`.  The source
accumulates `reward` over three sequential, independent guards; the sum below
adds up exactly the same contributions. -/
def CalculateRewardFromResponseStruct (resp : Response) (baselineState : State)
    (baselineSizeHash : String) : ℚ :=
  (if resp.StatusCode < 400 ∨ 500 ≤ resp.StatusCode ∨ resp.StatusCode = 401 ∨
      resp.StatusCode = 403 then 1 else 0)
  + (if 400 ≤ resp.StatusCode ∧ resp.StatusCode < 500 then
       (if (GetStateFromResponseFromResponseStruct resp baselineState.Depth).Hash ≠
            baselineState.Hash then
          (if GetSizeHash resp.Data ≠ baselineSizeHash then 1/2 else 0)
        else 0)
     else 1)
  + (if 200 ≤ resp.StatusCode ∧ resp.StatusCode < 300 then 1
     else if resp.StatusCode = 401 ∨ resp.StatusCode = 403 then 4/5
     else if resp.StatusCode = 404 then 0
     else if 500 ≤ resp.StatusCode ∧ resp.StatusCode < 600 then 3/5
     else 0)

/-- The differentiated-4xx bonus: +0.5 exactly when the classified state hash
differs from the baseline's and, gated by that check, the body digest differs
from the baseline digest. -/
def differentiationBonus (resp : Response) (baselineState : State)
    (baselineSizeHash : String) : ℚ :=
  if (GetStateFromResponseFromResponseStruct resp baselineState.Depth).Hash ≠
      baselineState.Hash then
    (if GetSizeHash resp.Data ≠ baselineSizeHash then 1/2 else 0)
  else 0

/-- The per-status-class reward table that the code realises (the spec's
net-effect table, with the extra +1.0 the code adds to every response outside
[400,500) restored).  Written by status class, to be compared with the additive
implementation. -/
def rewardSpecTable (resp : Response) (baselineState : State)
    (baselineSizeHash : String) : ℚ :=
  if 200 ≤ resp.StatusCode ∧ resp.StatusCode < 300 then 3
  else if resp.StatusCode = 401 ∨ resp.StatusCode = 403 then
    9/5 + differentiationBonus resp baselineState baselineSizeHash
  else if 300 ≤ resp.StatusCode ∧ resp.StatusCode < 400 then 2
  else if 500 ≤ resp.StatusCode ∧ resp.StatusCode < 600 then 13/5
  else if 400 ≤ resp.StatusCode ∧ resp.StatusCode < 500 then
    differentiationBonus resp baselineState baselineSizeHash
  else 2

/-- markov.go: `MarkovChain.UpdateTransition` (Q-learning variant), mirroring
the source's sequencing: map initialisation, count increments, Q-learning
update, and registration into `AvailableActions`. -/
def UpdateTransition (mc : MarkovChain) (t : Transition) : MarkovChain :=
  let fromKey := t.FromState.Hash
  let actionKey := t.Action.Token
  let toKey := t.ToState.Hash
  let qT0 := if (alistGet mc.QTable fromKey).isSome then mc.QTable
             else alistSet mc.QTable fromKey []
  let tC0 := if (alistGet mc.TransitionCounts fromKey).isSome then mc.TransitionCounts
             else alistSet mc.TransitionCounts fromKey []
  let aC0 := if (alistGet mc.ActionCounts fromKey).isSome then mc.ActionCounts
             else alistSet mc.ActionCounts fromKey []
  let aC1 := alistSet aC0 fromKey (alistIncr ((alistGet aC0 fromKey).getD []) actionKey)
  let tRow := (alistGet tC0 fromKey).getD []
  let tRow1 := alistSet tRow actionKey
      (alistIncr ((alistGet tRow actionKey).getD []) toKey)
  let tC1 := alistSet tC0 fromKey tRow1
  let sC1 := alistIncr mc.StateCounts fromKey
  let qRow := (alistGet qT0 fromKey).getD []
  let currentQ := (alistGet qRow actionKey).getD 0
  let maxNextQ : ℚ :=
    match alistGet qT0 toKey with
    | some nextQs =>
        if nextQs.length > 0 then nextQs.foldl (fun m p => if p.2 > m then p.2 else m) 0
        else 0
    | none => 0
  let newQ := currentQ + mc.Alpha * (t.Reward + mc.Gamma * maxNextQ - currentQ)
  let qT1 := alistSet qT0 fromKey (alistSet qRow actionKey newQ)
  let avail := (alistGet mc.AvailableActions fromKey).getD []
  let avail1 := if avail.contains actionKey then avail else avail ++ [actionKey]
  { mc with QTable := qT1, TransitionCounts := tC1, ActionCounts := aC1,
            StateCounts := sC1,
            AvailableActions := alistSet mc.AvailableActions fromKey avail1 }

/-- markov.go: `MarkovChain.GetExpectedReward`: Q-value, defaulting to 0.0
for unseen state or action. -/
def GetExpectedReward (mc : MarkovChain) (state : State) (action : String) : ℚ :=
  match alistGet mc.QTable state.Hash with
  | some qValues => (alistGet qValues action).getD 0
  | none => 0

/-- markov.go: `containsString`. -/
def containsString (slice : List String) (item : String) : Bool :=
  slice.any (fun s => s = item)

/-- One swap of the source's deterministic shuffle: exchange positions i and j
when both are in range. -/
def listSwap {α : Type} (l : List α) (i j : Nat) : List α :=
  match l.get? i, l.get? j with
  | some a, some b => (l.set i b).set j a
  | _, _ => l

/-- Loop body of `shuffleStrings`, iterating i = len-1 down to 1, swapping
index i with `(i*31) % len`. -/
def shuffleAux : List String → Nat → List String
  | l, 0 => l
  | l, Nat.succ k => shuffleAux (listSwap l (Nat.succ k) ((Nat.succ k * 31) % l.length)) k

/-- markov.go: `shuffleStrings`, the source's deterministic pseudo-shuffle
(`j := int(math.Abs(float64(i*31))) % len(slice)`). -/
def shuffleStrings (l : List String) : List String :=
  shuffleAux l (l.length - 1)

/-- markov.go: `getRandomSubset`: the whole slice when n covers it, else the
first n entries of the shuffled copy. -/
def getRandomSubset (slice : List String) (n : Nat) : List String :=
  if slice.length ≤ n then slice else (shuffleStrings slice).take n

/-- Descending-by-Q-value ordering on (action, q) pairs, the comparator
`actionValues[i].value > actionValues[j].value` of the source's sort. -/
def descPair (p q : String × ℚ) : Prop := q.2 ≤ p.2

instance : DecidableRel descPair := fun p q => inferInstanceAs (Decidable (q.2 ≤ p.2))

instance : IsTotal (String × ℚ) descPair := ⟨fun p q => le_total q.2 p.2⟩

instance : IsTrans (String × ℚ) descPair := ⟨fun _ _ _ h1 h2 => le_trans h2 h1⟩

/-- markov.go: `MarkovChain.GetBestActionsForState`.  `rowOrder` is the order
in which Go's map iteration delivers the Q-value entries of the state's row
(the language does not fix it); theorems constrain it to be a permutation of
the stored row. -/
def GetBestActionsForState (mc : MarkovChain) (state : State) (wordlist : List String)
    (n : Nat) (rowOrder : List (String × ℚ)) : List String :=
  match alistGet mc.QTable state.Hash with
  | none => getRandomSubset wordlist n
  | some _ =>
    let actionValues := rowOrder.filter (fun p => containsString wordlist p.1)
    if actionValues.length = 0 then getRandomSubset wordlist n
    else
      let sorted := List.insertionSort descPair actionValues
      let result := (sorted.take n).map Prod.fst
      if result.length < n then
        let remaining := wordlist.filter (fun w => ! containsString result w)
        result ++ (shuffleStrings remaining).take (n - result.length)
      else result

/-- inputprovider.go: `MarkovInputProvider` (the fields the transition update
reads; the batching fields are not needed by the claims). -/
structure MarkovInputProvider where
  MarkovChain : MarkovChain
  baselineState : State
  baselineSizeHash : String
  depth : Int

/-- Input payloads: Go's `map[string][]byte`, with each payload modelled as a
String. -/
abbrev InputMap := List (String × String)

/-- inputprovider.go: `MarkovInputProvider.UpdateWithResponse`: classify the
response, extract the FUZZ keyword's value as the action, compute the reward,
and record a transition whose from-state is always the baseline state. -/
def MarkovInputProvider.UpdateWithResponse (mip : MarkovInputProvider)
    (inputs : InputMap) (resp : Response) : MarkovInputProvider :=
  let currentState := GetStateFromResponseFromResponseStruct resp mip.depth
  let actionValue := ((inputs.find? (fun p => p.1 = "FUZZ")).map Prod.snd).getD ""
  let reward := CalculateRewardFromResponseStruct resp mip.baselineState mip.baselineSizeHash
  let t : Transition :=
    { FromState := mip.baselineState, Action := { Token := actionValue },
      ToState := currentState, Reward := reward }
  { mip with MarkovChain := UpdateTransition mip.MarkovChain t }

end QMarkov

namespace RawMarkov

/-- markov.go: `State` of the raw-valued variant (response characteristics
plus the engine's match flag).  `Duration` is in nanoseconds. -/
structure State where
  StatusCode : Int
  ContentLength : Int
  ContentWords : Int
  ContentLines : Int
  Duration : Int
  IsMatch : Bool
deriving DecidableEq

/-- markov.go: `State.String()`, the map key
`fmt.Sprintf("%d_%d_%d_%d_%d_%t", ...)`; `Duration.Milliseconds()` is
truncating division by 10^6. -/
def State.string (s : State) : String :=
  toString s.StatusCode ++ "_" ++ toString s.ContentLength ++ "_" ++
  toString s.ContentWords ++ "_" ++ toString s.ContentLines ++ "_" ++
  toString (s.Duration.tdiv 1000000) ++ "_" ++ toString s.IsMatch

/-- markov.go: `MarkovChain` of the raw-valued variant: transition
probabilities, transition counts, current state, history.  The private random
source is modelled by passing draws explicitly where they are consumed. -/
structure MarkovChain where
  Transitions : List (String × List (String × ℚ))
  StateCounts : List (String × List (String × Nat))
  CurrentState : State
  History : List State

/-- The zero value of `State` (Go's implicit zero for an uninitialised
struct field). -/
def zeroState : State :=
  { StatusCode := 0, ContentLength := 0, ContentWords := 0, ContentLines := 0,
    Duration := 0, IsMatch := false }

/-- markov.go: `NewMarkovChain` (raw variant). -/
def NewMarkovChain : MarkovChain :=
  { Transitions := [], StateCounts := [], CurrentState := zeroState, History := [] }

/-- Total of a count row, the `total` accumulated by `updateProbabilities`. -/
def rowTotal (counts : List (String × Nat)) : Nat :=
  counts.foldl (fun acc p => acc + p.2) 0

/-- markov.go: `updateProbabilities`: recompute every probability out of
`currentState` as count/total, writing over the existing row. -/
def updateProbabilities (mc : MarkovChain) (currentState : String) : MarkovChain :=
  let counts := (alistGet mc.StateCounts currentState).getD []
  if rowTotal counts = 0 then mc
  else
    let row := (alistGet mc.Transitions currentState).getD []
    let row1 := counts.foldl
      (fun r p => alistSet r p.1 ((p.2 : ℚ) / (rowTotal counts : ℚ))) row
    { mc with Transitions := alistSet mc.Transitions currentState row1 }

/-- markov.go: `UpdateTransition` (raw variant): bump the transition count and
recompute the probabilities out of the current state. -/
def UpdateTransition (mc : MarkovChain) (currentState nextState : State) : MarkovChain :=
  let currentStr := currentState.string
  let nextStr := nextState.string
  let counts := (alistGet mc.StateCounts currentStr).getD []
  let sc1 := alistSet mc.StateCounts currentStr (alistIncr counts nextStr)
  let mc1 := { mc with StateCounts := sc1 }
  updateProbabilities mc1 currentStr

/-- markov.go: `UpdateChain`: when history is non-empty, record a transition
from the most recent history entry; always append the new state. -/
def UpdateChain (mc : MarkovChain) (newState : State) : MarkovChain :=
  let mc1 :=
    match mc.History.getLast? with
    | some prevState => UpdateTransition mc prevState newState
    | none => mc
  { mc1 with CurrentState := newState, History := mc1.History ++ [newState] }

/-- markov.go: `GetTransitionProbability`: stored probability, 0.0 when the
from-state or the pair is unseen. -/
def GetTransitionProbability (mc : MarkovChain) (fromState toState : State) : ℚ :=
  match alistGet mc.Transitions fromState.string with
  | none => 0
  | some transitions => (alistGet transitions toState.string).getD 0

/-- Normalised view of a count row: every next-state with probability
count/total. -/
def normRow (counts : List (String × Nat)) : List (String × ℚ) :=
  counts.map (fun p => (p.1, (p.2 : ℚ) / (rowTotal counts : ℚ)))

/-- Consistency invariant of the raw chain: each probability row is exactly
the normalised count row, count rows are non-empty with positive entries and
distinct keys. -/
def ChainInv (mc : MarkovChain) : Prop :=
  (∀ k, alistGet mc.Transitions k = (alistGet mc.StateCounts k).map normRow) ∧
  (∀ k counts, alistGet mc.StateCounts k = some counts →
      counts ≠ [] ∧ (counts.map Prod.fst).Nodup ∧ ∀ p ∈ counts, 1 ≤ p.2)

/-- A call into the raw chain's mutating interface. -/
inductive RawOp where
  | trans (current next : State)
  | chain (newState : State)

/-- Apply one call. -/
def applyRawOp (mc : MarkovChain) : RawOp → MarkovChain
  | RawOp.trans current next => UpdateTransition mc current next
  | RawOp.chain newState => UpdateChain mc newState

/-- Run a sequence of calls against a fresh chain. -/
def runRawOps (ops : List RawOp) : MarkovChain :=
  ops.foldl applyRawOp NewMarkovChain

end RawMarkov

namespace Feedback

open RawMarkov

/-- Input payloads, as in the adapter: Go's `map[string][]byte`. -/
abbrev InputMap := QMarkov.InputMap

/-- feedback.go: the `Response` struct of the markov package. -/
structure Response where
  StatusCode : Int
  ContentLength : Int
  ContentWords : Int
  ContentLines : Int
  Duration : Int
deriving DecidableEq

/-- feedback.go: `FeedbackController`: raw chain, matched-input memory,
bounded response history. -/
structure FeedbackController where
  chain : MarkovChain
  matchedInputs : List InputMap
  responseHistory : List State
  maxHistory : Nat

/-- feedback.go: `NewFeedbackController`, history capacity 100. -/
def NewFeedbackController : FeedbackController :=
  { chain := NewMarkovChain, matchedInputs := [], responseHistory := [],
    maxHistory := 100 }

/-- The state built by `UpdateWithResponse` from a response and match flag. -/
def responseState (resp : Response) (isMatch : Bool) : State :=
  { StatusCode := resp.StatusCode, ContentLength := resp.ContentLength,
    ContentWords := resp.ContentWords, ContentLines := resp.ContentLines,
    Duration := resp.Duration, IsMatch := isMatch }

/-- feedback.go: `FeedbackController.UpdateWithResponse`: update the chain and
append to the bounded response history (drop the oldest beyond capacity). -/
def UpdateWithResponse (fc : FeedbackController) (resp : Response)
    (isMatch : Bool) : FeedbackController :=
  let state := responseState resp isMatch
  let hist := fc.responseHistory ++ [state]
  { fc with chain := UpdateChain fc.chain state,
            responseHistory := if fc.maxHistory < hist.length then hist.tail else hist }

/-- feedback.go: `FeedbackController.UpdateWithMatchedInput`: append to the
matched-input memory, capacity 100, oldest evicted first. -/
def UpdateWithMatchedInput (fc : FeedbackController) (input : InputMap) :
    FeedbackController :=
  let m := fc.matchedInputs ++ [input]
  { fc with matchedInputs := if 100 < m.length then m.tail else m }

/-- feedback.go: `getProbabilityOfMatchTransition`: sum the transition
probabilities from `fromState` into every matched state in the history. -/
def getProbabilityOfMatchTransition (fc : FeedbackController) (fromState : State) : ℚ :=
  fc.responseHistory.foldl
    (fun prob st =>
      if st.IsMatch then prob + GetTransitionProbability fc.chain fromState st
      else prob)
    0

/-- feedback.go: `shouldUseMatchedInput`; `u` is the draw of
`fc.chain.rand.Float64()` (not consumed on the short-history path, exactly as
in the source). -/
def shouldUseMatchedInput (fc : FeedbackController) (u : ℚ) : Bool :=
  if fc.responseHistory.length < 2 then decide (0 < fc.matchedInputs.length)
  else
    let previousState := (fc.responseHistory.getLast?).getD zeroState
    decide (u < getProbabilityOfMatchTransition fc previousState * (4/5))

/-- feedback.go: `getWeightedIndex`: `int(u² · (length−1))` with the draw `u`;
Go's float-to-int conversion truncates, which on a non-negative value is the
floor. -/
def getWeightedIndex (length : Nat) (u : ℚ) : Int :=
  if length = 0 then 0
  else Int.floor (u ^ 2 * ((length - 1 : Nat) : ℚ))

/-- feedback.go: `selectFromMatchedInputs` with the recency-biased index. -/
def selectFromMatchedInputs (fc : FeedbackController) (u : ℚ) : Option InputMap :=
  if fc.matchedInputs.length = 0 then none
  else some (fc.matchedInputs.getD (getWeightedIndex fc.matchedInputs.length u).toNat [])

/-- feedback.go: `selectAndModifyInput`: the selected matched input, else the
base input. -/
def selectAndModifyInput (fc : FeedbackController) (baseInput : InputMap) (u : ℚ) :
    InputMap :=
  match selectFromMatchedInputs fc u with
  | none => baseInput
  | some selected => selected

/-- feedback.go: `GetNextInput`; `baseValue` is what the wrapped provider's
`Value()` returns, `u1`/`u2` the two random draws.  Returns the substituted
input and the usedFeedback flag (`nil` is modelled as `none`). -/
def GetNextInput (fc : FeedbackController) (baseValue : InputMap) (u1 u2 : ℚ) :
    Option InputMap × Bool :=
  if 0 < fc.matchedInputs.length ∧ shouldUseMatchedInput fc u1 = true then
    (some (selectAndModifyInput fc baseValue u2), true)
  else (none, false)

/-- feedback.go: the rollup produced by `AnalyzeResponsePatterns` (the
`map[string]interface` payload as a record). -/
structure Analysis where
  avg_status_code : ℚ
  avg_content_length : ℚ
  avg_content_words : ℚ
  avg_content_lines : ℚ
  avg_duration_ns : ℚ
  match_rate : ℚ
  total_responses : Nat
  total_matches : Nat
  top_status_codes : List (Int × Nat)
deriving DecidableEq

/-- The status-code frequency map accumulated by the analysis loop
(`statusCodes[state.StatusCode]++`), in first-observed key order. -/
def buildStatusCodes (history : List State) : List (Int × Nat) :=
  history.foldl (fun m st => alistIncr m st.StatusCode) []

/-- Descending-by-count ordering on (code, count) pairs, the comparator
`statusCodeList[i].Count > statusCodeList[j].Count` of the source's sort. -/
def descCode (p q : Int × Nat) : Prop := q.2 ≤ p.2

instance : DecidableRel descCode := fun p q => inferInstanceAs (Decidable (q.2 ≤ p.2))

instance : IsTotal (Int × Nat) descCode := ⟨fun p q => Nat.le_total q.2 p.2⟩

instance : IsTrans (Int × Nat) descCode := ⟨fun _ _ _ h1 h2 => Nat.le_trans h2 h1⟩

/-- feedback.go: `AnalyzeResponsePatterns`.  `codesOrder` is the order in
which Go's map iteration delivers the status-code counts (unspecified by the
language); theorems constrain it to a permutation of the accumulated map.
Returns `none` for the empty rollup on empty history. -/
def AnalyzeResponsePatterns (fc : FeedbackController)
    (codesOrder : List (Int × Nat)) : Option Analysis :=
  if fc.responseHistory.length = 0 then none
  else
    let n : ℚ := (fc.responseHistory.length : ℚ)
    let matchCount := fc.responseHistory.foldl
      (fun (c : Nat) st => if st.IsMatch then c + 1 else c) 0
    let sorted := List.insertionSort descCode codesOrder
    some
      { avg_status_code :=
          ((fc.responseHistory.foldl (fun a st => a + st.StatusCode) 0 : Int) : ℚ) / n
        avg_content_length :=
          ((fc.responseHistory.foldl (fun a st => a + st.ContentLength) 0 : Int) : ℚ) / n
        avg_content_words :=
          ((fc.responseHistory.foldl (fun a st => a + st.ContentWords) 0 : Int) : ℚ) / n
        avg_content_lines :=
          ((fc.responseHistory.foldl (fun a st => a + st.ContentLines) 0 : Int) : ℚ) / n
        avg_duration_ns :=
          ((fc.responseHistory.foldl (fun a st => a + st.Duration) 0 : Int) : ℚ) / n
        match_rate := (matchCount : ℚ) / n
        total_responses := fc.responseHistory.length
        total_matches := matchCount
        top_status_codes := sorted.take (min 5 sorted.length) }

/-- A call into the controller's recording interface. -/
inductive FCOp where
  | record (resp : Response) (isMatch : Bool)
  | matched (input : InputMap)

/-- Apply one call. -/
def applyFCOp (fc : FeedbackController) : FCOp → FeedbackController
  | FCOp.record resp isMatch => UpdateWithResponse fc resp isMatch
  | FCOp.matched input => UpdateWithMatchedInput fc input

/-- Run a sequence of calls against a fresh controller. -/
def runFCOps (ops : List FCOp) : FeedbackController :=
  ops.foldl applyFCOp NewFeedbackController

end Feedback

/-- A concrete Q-chain as reached after learning two actions with equal
Q-value 1/10 for the 4xx baseline state (each updated once with reward 1 into
a 2xx state that has no Q-values of its own). -/
def tieChain : QMarkov.MarkovChain :=
  { QTable :=
      [(QMarkov.State.Hash { CodeClass := "4xx", SizeBucket := "0", Depth := 0 },
        [("alpha", 1/10), ("beta", 1/10)])]
    TransitionCounts :=
      [(QMarkov.State.Hash { CodeClass := "4xx", SizeBucket := "0", Depth := 0 },
        [("alpha",
           [(QMarkov.State.Hash { CodeClass := "2xx", SizeBucket := "0", Depth := 0 }, 1)]),
         ("beta",
           [(QMarkov.State.Hash { CodeClass := "2xx", SizeBucket := "0", Depth := 0 }, 1)])])]
    ActionCounts :=
      [(QMarkov.State.Hash { CodeClass := "4xx", SizeBucket := "0", Depth := 0 },
        [("alpha", 1), ("beta", 1)])]
    StateCounts :=
      [(QMarkov.State.Hash { CodeClass := "4xx", SizeBucket := "0", Depth := 0 }, 2)]
    AvailableActions :=
      [(QMarkov.State.Hash { CodeClass := "4xx", SizeBucket := "0", Depth := 0 },
        ["alpha", "beta"])]
    Alpha := 1/10, Gamma := 9/10, Epsilon := 1/10, Threshold := 1/100 }

section AlistLemmas

variable {K β : Type} [DecidableEq K]

theorem alistGet_set_self (m : List (K × β)) (k : K) (v : β) :
    alistGet (alistSet m k v) k = some v := by
  induction m with
  | nil => simp [alistSet, alistGet]
  | cons p rest ih =>
    obtain ⟨k', v'⟩ := p
    by_cases h : k' = k
    · subst h; simp [alistSet, alistGet]
    · simp [alistSet, alistGet, h, ih]

theorem alistGet_set_ne (m : List (K × β)) (k k' : K) (v : β) (h : k ≠ k') :
    alistGet (alistSet m k v) k' = alistGet m k' := by
  induction m with
  | nil => simp [alistSet, alistGet, h]
  | cons p rest ih =>
    obtain ⟨k0, v0⟩ := p
    by_cases h0 : k0 = k
    · subst h0; simp [alistSet, alistGet, h]
    · simp [alistSet, alistGet, h0, ih]

theorem alistGet_incr_self (m : List (K × Nat)) (k : K) :
    alistGet (alistIncr m k) k = some ((alistGet m k).getD 0 + 1) :=
  alistGet_set_self m k _

theorem alistGet2_eq {K2 : Type} [DecidableEq K2]
    (m : List (K × List (K2 × β))) (k1 : K) (k2 : K2) :
    alistGet2 m k1 k2 = alistGet ((alistGet m k1).getD []) k2 := by
  unfold alistGet2
  cases alistGet m k1 <;> simp [alistGet]

theorem alistGet_eq_none_iff (m : List (K × β)) (k : K) :
    alistGet m k = none ↔ ∀ p ∈ m, p.1 ≠ k := by
  induction m with
  | nil => simp [alistGet]
  | cons p rest ih =>
    obtain ⟨k', v'⟩ := p
    by_cases h : k' = k
    · subst h; simp [alistGet]
    · simp [alistGet, h, ih]

theorem alistSet_append_of_not_mem (m : List (K × β)) (k : K) (v : β)
    (h : ∀ p ∈ m, p.1 ≠ k) : alistSet m k v = m ++ [(k, v)] := by
  induction m with
  | nil => simp [alistSet]
  | cons p rest ih =>
    obtain ⟨k', v'⟩ := p
    have hk : k' ≠ k := h (k', v') (by simp)
    simp only [alistSet, if_neg hk, List.cons_append]
    rw [ih (fun q hq => h q (by simp [hq]))]

theorem alistSet_keys_of_mem (m : List (K × β)) (k : K) (v : β)
    (h : (alistGet m k).isSome) :
    (alistSet m k v).map Prod.fst = m.map Prod.fst := by
  induction m with
  | nil => simp [alistGet] at h
  | cons p rest ih =>
    obtain ⟨k', v'⟩ := p
    by_cases hk : k' = k
    · subst hk; simp [alistSet]
    · simp only [alistGet, if_neg hk] at h
      simp [alistSet, hk, ih h]

theorem mem_alistSet (m : List (K × β)) (k : K) (v : β) (p : K × β)
    (h : p ∈ alistSet m k v) : p = (k, v) ∨ p ∈ m := by
  induction m with
  | nil => simp [alistSet] at h; simp [h]
  | cons q rest ih =>
    obtain ⟨k', v'⟩ := q
    by_cases hk : k' = k
    · subst hk; simp [alistSet] at h
      rcases h with h | h
      · exact Or.inl (by simp [h])
      · exact Or.inr (by simp [h])
    · simp only [alistSet, if_neg hk, List.mem_cons] at h
      rcases h with h | h
      · exact Or.inr (by simp [h])
      · rcases ih h with h | h
        · exact Or.inl h
        · exact Or.inr (by simp [h])

theorem alistGet_map (m : List (K × β)) (k : K) {γ : Type} (f : β → γ) :
    alistGet (m.map (fun p => (p.1, f p.2))) k = (alistGet m k).map f := by
  induction m with
  | nil => simp [alistGet]
  | cons p rest ih =>
    obtain ⟨k', v'⟩ := p
    by_cases h : k' = k <;> simp [alistGet, h, ih]

end AlistLemmas

section QuantizeLemmas

theorem QuantizeSize_eq (size : Int) :
    QMarkov.QuantizeSize size = toString (QMarkov.quantizeVal size) := by
  unfold QMarkov.QuantizeSize QMarkov.quantizeVal
  split_ifs <;> rfl

/-- C8: `QuantizeSize` is idempotent (re-quantizing the integer value of any
bucket yields the same bucket), its bucket value is monotone non-decreasing in
the integer argument, and every negative input lands in the bucket of 0,
rendered as the string "0". -/
theorem quantize_idempotent_monotone_clamp (x y : Int) :
    QMarkov.QuantizeSize (QMarkov.quantizeVal x : Int) = QMarkov.QuantizeSize x ∧
    (x ≤ y → QMarkov.quantizeVal x ≤ QMarkov.quantizeVal y) ∧
    (x < 0 → QMarkov.QuantizeSize x = QMarkov.QuantizeSize 0 ∧
             QMarkov.QuantizeSize x = "0") := by
  refine ⟨?_, ?_, ?_⟩
  · rw [QuantizeSize_eq, QuantizeSize_eq]
    have hval : QMarkov.quantizeVal (QMarkov.quantizeVal x : Int) = QMarkov.quantizeVal x := by
      unfold QMarkov.quantizeVal
      simp only [Int.toNat_natCast]
      split_ifs <;> omega
    rw [hval]
  · intro hxy
    have h : x.toNat ≤ y.toNat := Int.toNat_le_toNat hxy
    unfold QMarkov.quantizeVal
    split_ifs <;> omega
  · intro hx
    have h0 : x.toNat = 0 := by omega
    constructor
    · unfold QMarkov.QuantizeSize
      rw [h0]
      rfl
    · unfold QMarkov.QuantizeSize
      rw [h0]
      rfl

/-- Witness for C8 at concrete inputs: 15 vs 105 for monotonicity, -7 for the
negative clamp, 15 for idempotence. -/
theorem quantize_idempotent_monotone_clamp_witness :
    QMarkov.QuantizeSize (QMarkov.quantizeVal 15 : Int) = QMarkov.QuantizeSize 15 ∧
    QMarkov.quantizeVal 15 ≤ QMarkov.quantizeVal 105 ∧
    QMarkov.QuantizeSize (-7) = "0" :=
  ⟨(quantize_idempotent_monotone_clamp 15 15).1,
   (quantize_idempotent_monotone_clamp 15 105).2.1 (by decide),
   ((quantize_idempotent_monotone_clamp (-7) 0).2.2 (by decide)).2⟩

end QuantizeLemmas

section RewardLemmas

/-- C1 (corrected): the reward function agrees everywhere with the per-class
table, whose values are 3.0 for 2xx, 1.8 for 401/403 (2.3 when the
differentiation bonus applies), 2.0 for 3xx, 2.6 for 5xx, 0.5 for a
differentiated 4xx other than 401/403, 0.0 for a plain 4xx (including a 404
whose digest differs while its state hash matches — the state-hash check gates
the digest check), and 2.0 for any status outside [200,600). -/
theorem calculateReward_eq_rewardSpecTable (resp : QMarkov.Response)
    (baselineState : QMarkov.State) (baselineSizeHash : String) :
    QMarkov.CalculateRewardFromResponseStruct resp baselineState baselineSizeHash
      = QMarkov.rewardSpecTable resp baselineState baselineSizeHash := by
  unfold QMarkov.CalculateRewardFromResponseStruct QMarkov.rewardSpecTable
    QMarkov.differentiationBonus
  split_ifs <;> first
    | rfl
    | omega
    | norm_num

/-- Counterexample to C1 as stated: a 200 response scores 3.0 (the claim says
2.0), a 301 response scores 2.0 (the claim says 1.0), and a 500 response
scores 2.6 (the claim says 1.6). -/
theorem reward_differs_from_claimed_table :
    QMarkov.CalculateRewardFromResponseStruct
        { StatusCode := 200, Data := [], ContentLength := 0, ContentWords := 0,
          ContentLines := 0 }
        { CodeClass := "4xx", SizeBucket := "130", Depth := 1 } "d0" = 3 ∧
    ¬ QMarkov.CalculateRewardFromResponseStruct
        { StatusCode := 200, Data := [], ContentLength := 0, ContentWords := 0,
          ContentLines := 0 }
        { CodeClass := "4xx", SizeBucket := "130", Depth := 1 } "d0" = 2 ∧
    QMarkov.CalculateRewardFromResponseStruct
        { StatusCode := 301, Data := [], ContentLength := 0, ContentWords := 0,
          ContentLines := 0 }
        { CodeClass := "4xx", SizeBucket := "130", Depth := 1 } "d0" = 2 ∧
    QMarkov.CalculateRewardFromResponseStruct
        { StatusCode := 500, Data := [], ContentLength := 0, ContentWords := 0,
          ContentLines := 0 }
        { CodeClass := "4xx", SizeBucket := "130", Depth := 1 } "d0" = 13/5 := by
  refine ⟨?_, ?_, ?_, ?_⟩ <;> norm_num [QMarkov.CalculateRewardFromResponseStruct]

end RewardLemmas

section QUpdateLemmas

/-- C7: the expected reward of a never-observed (state, action) pair is 0.0
(a plain lookup default, never an error), and one `UpdateTransition` from a
fresh pair with reward r, into a state with no Q-values (so maxNextQ = 0),
sets it to α·r. -/
theorem expectedReward_fresh_update (mc : QMarkov.MarkovChain) (t : QMarkov.Transition)
    (h1 : alistGet2 mc.QTable t.FromState.Hash t.Action.Token = none)
    (h2 : (alistGet mc.QTable t.ToState.Hash).getD [] = []) :
    QMarkov.GetExpectedReward mc t.FromState t.Action.Token = 0 ∧
    QMarkov.GetExpectedReward (QMarkov.UpdateTransition mc t) t.FromState t.Action.Token
      = mc.Alpha * t.Reward := by
  rw [alistGet2_eq] at h1
  constructor
  · unfold QMarkov.GetExpectedReward
    cases hq : alistGet mc.QTable t.FromState.Hash with
    | none => rfl
    | some row =>
      rw [hq] at h1
      simp only [Option.getD_some] at h1
      simp [h1]
  · simp only [QMarkov.GetExpectedReward, QMarkov.UpdateTransition]
    have hrow : alistGet
        (if (alistGet mc.QTable t.FromState.Hash).isSome then mc.QTable
         else alistSet mc.QTable t.FromState.Hash []) t.FromState.Hash
          = some ((alistGet mc.QTable t.FromState.Hash).getD []) := by
      by_cases hs : (alistGet mc.QTable t.FromState.Hash).isSome
      · obtain ⟨v, hv⟩ := Option.isSome_iff_exists.mp hs
        simp [hs, hv]
      · simp only [hs, if_false, Bool.false_eq_true]
        rw [Option.not_isSome_iff_eq_none] at hs
        simp [hs, alistGet_set_self]
    have hto : alistGet
        (if (alistGet mc.QTable t.FromState.Hash).isSome then mc.QTable
         else alistSet mc.QTable t.FromState.Hash []) t.ToState.Hash
          = none ∨
        alistGet
        (if (alistGet mc.QTable t.FromState.Hash).isSome then mc.QTable
         else alistSet mc.QTable t.FromState.Hash []) t.ToState.Hash
          = some [] := by
      by_cases he : t.FromState.Hash = t.ToState.Hash
      · have h2' : (alistGet mc.QTable t.FromState.Hash).getD [] = [] := by
          rw [he]; exact h2
        rw [← he, hrow, h2']
        exact Or.inr rfl
      · have hunch : alistGet
            (if (alistGet mc.QTable t.FromState.Hash).isSome then mc.QTable
             else alistSet mc.QTable t.FromState.Hash []) t.ToState.Hash
              = alistGet mc.QTable t.ToState.Hash := by
          by_cases hs : (alistGet mc.QTable t.FromState.Hash).isSome
          · simp [hs]
          · simp only [hs, if_false, Bool.false_eq_true]
            exact alistGet_set_ne mc.QTable t.FromState.Hash t.ToState.Hash [] he
        rw [hunch]
        cases hv : alistGet mc.QTable t.ToState.Hash with
        | none => exact Or.inl rfl
        | some v =>
          rw [hv] at h2
          simp only [Option.getD_some] at h2
          exact Or.inr (by rw [h2])
    rw [alistGet_set_self]
    simp only [Option.getD_some]
    rw [alistGet_set_self]
    simp only [Option.getD_some]
    rw [hrow]
    simp only [Option.getD_some, h1, Option.getD_none]
    rcases hto with hto | hto <;> rw [hto] <;> simp

/-- Witness for C7: on a fresh chain, the expected reward of ("2xx","0",0)
with token "admin" is 0; after one update with reward 1 it is α·1 = 1/10. -/
theorem expectedReward_fresh_update_witness :
    QMarkov.GetExpectedReward QMarkov.NewMarkovChain
      { CodeClass := "2xx", SizeBucket := "0", Depth := 0 } "admin" = 0 ∧
    QMarkov.GetExpectedReward
      (QMarkov.UpdateTransition QMarkov.NewMarkovChain
        { FromState := { CodeClass := "2xx", SizeBucket := "0", Depth := 0 },
          Action := { Token := "admin" },
          ToState := { CodeClass := "4xx", SizeBucket := "0", Depth := 0 },
          Reward := 1 })
      { CodeClass := "2xx", SizeBucket := "0", Depth := 0 } "admin" = 1/10 := by
  have h := expectedReward_fresh_update QMarkov.NewMarkovChain
    { FromState := { CodeClass := "2xx", SizeBucket := "0", Depth := 0 },
      Action := { Token := "admin" },
      ToState := { CodeClass := "4xx", SizeBucket := "0", Depth := 0 },
      Reward := 1 }
    (by rfl) (by rfl)
  refine ⟨h.1, ?_⟩
  rw [h.2]
  norm_num [QMarkov.NewMarkovChain]

end QUpdateLemmas

section FromStateLemmas

theorem rowTotal_go (m : List (String × Nat)) (acc : Nat) :
    m.foldl (fun a p => a + p.2) acc = acc + RawMarkov.rowTotal m := by
  induction m generalizing acc with
  | nil => simp [RawMarkov.rowTotal]
  | cons p rest ih =>
    simp only [RawMarkov.rowTotal, List.foldl] at *
    rw [ih, ih (0 + p.2)]
    omega

theorem rowTotal_cons (k : String) (v : Nat) (rest : List (String × Nat)) :
    RawMarkov.rowTotal ((k, v) :: rest) = v + RawMarkov.rowTotal rest := by
  show List.foldl (fun a p => a + p.2) (0 + v) rest = _
  rw [rowTotal_go]
  omega

theorem alistIncr_cons_eq (k : String) (v : Nat) (rest : List (String × Nat)) :
    alistIncr ((k, v) :: rest) k = (k, v + 1) :: rest := by
  simp [alistIncr, alistGet, alistSet]

theorem alistIncr_cons_ne (k k' : String) (v : Nat) (rest : List (String × Nat))
    (h : k' ≠ k) : alistIncr ((k', v) :: rest) k = (k', v) :: alistIncr rest k := by
  simp [alistIncr, alistGet, alistSet, h]

theorem rowTotal_alistIncr (m : List (String × Nat)) (k : String) :
    RawMarkov.rowTotal (alistIncr m k) = RawMarkov.rowTotal m + 1 := by
  induction m with
  | nil => simp [alistIncr, alistGet, alistSet, RawMarkov.rowTotal]
  | cons p rest ih =>
    obtain ⟨k', v⟩ := p
    by_cases h : k' = k
    · subst h
      rw [alistIncr_cons_eq, rowTotal_cons, rowTotal_cons]
      omega
    · rw [alistIncr_cons_ne _ _ _ _ h, rowTotal_cons, rowTotal_cons, ih]
      omega

theorem updateProbabilities_StateCounts (mc : RawMarkov.MarkovChain) (k : String) :
    (RawMarkov.updateProbabilities mc k).StateCounts = mc.StateCounts := by
  simp only [RawMarkov.updateProbabilities]
  split_ifs <;> rfl

theorem updateTransition_StateCounts (mc : RawMarkov.MarkovChain)
    (cur next : RawMarkov.State) :
    (RawMarkov.UpdateTransition mc cur next).StateCounts
      = alistSet mc.StateCounts cur.string
          (alistIncr ((alistGet mc.StateCounts cur.string).getD []) next.string) := by
  simp only [RawMarkov.UpdateTransition]
  rw [updateProbabilities_StateCounts]

theorem qUpdateTransition_StateCounts (mc : QMarkov.MarkovChain) (t : QMarkov.Transition) :
    (QMarkov.UpdateTransition mc t).StateCounts = alistIncr mc.StateCounts t.FromState.Hash :=
  rfl

/-- Counterexample to C2 as stated: recording the very first response on a
fresh controller produces no transition update at all — both the transition
counts and the probability table stay empty (the claimed baseline-state
cold-start fallback does not exist on this path). -/
theorem first_response_records_no_transition :
    (Feedback.UpdateWithResponse Feedback.NewFeedbackController
        { StatusCode := 200, ContentLength := 100, ContentWords := 20,
          ContentLines := 10, Duration := 50 } true).chain.StateCounts = [] ∧
    (Feedback.UpdateWithResponse Feedback.NewFeedbackController
        { StatusCode := 200, ContentLength := 100, ContentWords := 20,
          ContentLines := 10, Duration := 50 } true).chain.Transitions = [] := by
  constructor <;> rfl

/-- C2 (corrected): in the controller path, the from-state of the transition
update is the most recent previously recorded state whenever one exists, and
when the history is empty no transition update happens at all; in the
input-provider adapter path, the from-state is always the baseline state. -/
theorem updateWithResponse_from_state (fc : Feedback.FeedbackController)
    (resp : Feedback.Response) (isMatch : Bool)
    (mip : QMarkov.MarkovInputProvider) (inputs : QMarkov.InputMap)
    (resp2 : QMarkov.Response) :
    (∀ prev, fc.chain.History.getLast? = some prev →
      alistGet2 (Feedback.UpdateWithResponse fc resp isMatch).chain.StateCounts
          prev.string (Feedback.responseState resp isMatch).string
        = some ((alistGet2 fc.chain.StateCounts prev.string
            (Feedback.responseState resp isMatch).string).getD 0 + 1)) ∧
    (fc.chain.History = [] →
      (Feedback.UpdateWithResponse fc resp isMatch).chain.StateCounts
          = fc.chain.StateCounts ∧
      (Feedback.UpdateWithResponse fc resp isMatch).chain.Transitions
          = fc.chain.Transitions) ∧
    alistGet (QMarkov.MarkovInputProvider.UpdateWithResponse mip inputs
        resp2).MarkovChain.StateCounts mip.baselineState.Hash
      = some ((alistGet mip.MarkovChain.StateCounts mip.baselineState.Hash).getD 0 + 1) := by
  refine ⟨?_, ?_, ?_⟩
  · intro prev hprev
    simp only [Feedback.UpdateWithResponse, RawMarkov.UpdateChain, hprev]
    rw [updateTransition_StateCounts]
    rw [alistGet2_eq, alistGet2_eq, alistGet_set_self]
    simp only [Option.getD_some]
    rw [alistGet_incr_self]
  · intro hH
    have hlast : fc.chain.History.getLast? = none := by
      rw [hH]; rfl
    constructor <;> simp only [Feedback.UpdateWithResponse, RawMarkov.UpdateChain, hlast]
  · simp only [QMarkov.MarkovInputProvider.UpdateWithResponse]
    rw [qUpdateTransition_StateCounts, alistGet_incr_self]

/-- Witness for C2 at concrete inputs: a controller that already recorded one
response uses that state as the from-state; a fresh controller records
nothing; the adapter increments the baseline state's counter. -/
theorem updateWithResponse_from_state_witness :
    (alistGet2 (Feedback.UpdateWithResponse
        (Feedback.UpdateWithResponse Feedback.NewFeedbackController
          { StatusCode := 200, ContentLength := 100, ContentWords := 20,
            ContentLines := 10, Duration := 50 } true)
        { StatusCode := 404, ContentLength := 50, ContentWords := 10,
          ContentLines := 5, Duration := 30 } false).chain.StateCounts
        (Feedback.responseState
          { StatusCode := 200, ContentLength := 100, ContentWords := 20,
            ContentLines := 10, Duration := 50 } true).string
        (Feedback.responseState
          { StatusCode := 404, ContentLength := 50, ContentWords := 10,
            ContentLines := 5, Duration := 30 } false).string
      = some ((alistGet2 (Feedback.UpdateWithResponse Feedback.NewFeedbackController
          { StatusCode := 200, ContentLength := 100, ContentWords := 20,
            ContentLines := 10, Duration := 50 } true).chain.StateCounts
          (Feedback.responseState
            { StatusCode := 200, ContentLength := 100, ContentWords := 20,
              ContentLines := 10, Duration := 50 } true).string
          (Feedback.responseState
            { StatusCode := 404, ContentLength := 50, ContentWords := 10,
              ContentLines := 5, Duration := 30 } false).string).getD 0 + 1)) ∧
    alistGet (QMarkov.MarkovInputProvider.UpdateWithResponse
        { MarkovChain := QMarkov.NewMarkovChain,
          baselineState := { CodeClass := "4xx", SizeBucket := "130", Depth := 1 },
          baselineSizeHash := "d0", depth := 1 }
        [] { StatusCode := 200, Data := [], ContentLength := 0, ContentWords := 0,
             ContentLines := 0 }).MarkovChain.StateCounts
        ({ CodeClass := "4xx", SizeBucket := "130", Depth := 1 } : QMarkov.State).Hash
      = some 1 := by
  constructor
  · exact (updateWithResponse_from_state
      (Feedback.UpdateWithResponse Feedback.NewFeedbackController
        { StatusCode := 200, ContentLength := 100, ContentWords := 20,
          ContentLines := 10, Duration := 50 } true)
      { StatusCode := 404, ContentLength := 50, ContentWords := 10,
        ContentLines := 5, Duration := 30 } false
      { MarkovChain := QMarkov.NewMarkovChain,
        baselineState := { CodeClass := "4xx", SizeBucket := "130", Depth := 1 },
        baselineSizeHash := "d0", depth := 1 }
      [] { StatusCode := 200, Data := [], ContentLength := 0, ContentWords := 0,
           ContentLines := 0 }).1
      (Feedback.responseState
        { StatusCode := 200, ContentLength := 100, ContentWords := 20,
          ContentLines := 10, Duration := 50 } true)
      (by rfl)
  · have h := (updateWithResponse_from_state
      (Feedback.UpdateWithResponse Feedback.NewFeedbackController
        { StatusCode := 200, ContentLength := 100, ContentWords := 20,
          ContentLines := 10, Duration := 50 } true)
      { StatusCode := 404, ContentLength := 50, ContentWords := 10,
        ContentLines := 5, Duration := 30 } false
      { MarkovChain := QMarkov.NewMarkovChain,
        baselineState := { CodeClass := "4xx", SizeBucket := "130", Depth := 1 },
        baselineSizeHash := "d0", depth := 1 }
      [] { StatusCode := 200, Data := [], ContentLength := 0, ContentWords := 0,
           ContentLines := 0 }).2.2
    rw [h]
    rfl

end FromStateLemmas

section FifoLemmas

theorem tail_append_single {α : Type} (l : List α) (x : α) (h : l ≠ []) :
    (l ++ [x]).tail = l.tail ++ [x] := by
  cases l with
  | nil => exact absurd rfl h
  | cons a t => rfl

theorem applyFCOp_preserves (fc : Feedback.FeedbackController) (op : Feedback.FCOp)
    (h1 : fc.maxHistory = 100) (h2 : fc.matchedInputs.length ≤ 100)
    (h3 : fc.responseHistory.length ≤ 100) :
    (Feedback.applyFCOp fc op).maxHistory = 100 ∧
    (Feedback.applyFCOp fc op).matchedInputs.length ≤ 100 ∧
    (Feedback.applyFCOp fc op).responseHistory.length ≤ 100 := by
  cases op with
  | record resp isMatch =>
    refine ⟨h1, h2, ?_⟩
    simp only [Feedback.applyFCOp, Feedback.UpdateWithResponse]
    split_ifs with h
    · simp only [List.length_tail, List.length_append, List.length_cons,
        List.length_nil]
      omega
    · simp only [List.length_append, List.length_cons, List.length_nil] at h ⊢
      omega
  | matched input =>
    refine ⟨h1, ?_, h3⟩
    simp only [Feedback.applyFCOp, Feedback.UpdateWithMatchedInput]
    split_ifs with h
    · simp only [List.length_tail, List.length_append, List.length_cons,
        List.length_nil]
      omega
    · simp only [List.length_append, List.length_cons, List.length_nil] at h ⊢
      omega

theorem foldl_FCOps_inv (ops : List Feedback.FCOp) :
    ∀ fc : Feedback.FeedbackController, fc.maxHistory = 100 →
      fc.matchedInputs.length ≤ 100 → fc.responseHistory.length ≤ 100 →
      ((ops.foldl Feedback.applyFCOp fc).maxHistory = 100 ∧
       (ops.foldl Feedback.applyFCOp fc).matchedInputs.length ≤ 100 ∧
       (ops.foldl Feedback.applyFCOp fc).responseHistory.length ≤ 100) := by
  induction ops with
  | nil => exact fun fc h1 h2 h3 => ⟨h1, h2, h3⟩
  | cons op rest ih =>
    intro fc h1 h2 h3
    obtain ⟨a, b, c⟩ := applyFCOp_preserves fc op h1 h2 h3
    exact ih _ a b c

/-- C5: after any sequence of recording calls both FIFO buffers hold at most
100 entries; an insertion into a buffer below capacity appends at the
most-recent end; an insertion into a full buffer appends and evicts exactly
the oldest entry, preserving the order of the rest. -/
theorem fifo_buffers_bounded (ops : List Feedback.FCOp)
    (fc : Feedback.FeedbackController) (input : Feedback.InputMap)
    (resp : Feedback.Response) (isMatch : Bool) :
    (Feedback.runFCOps ops).matchedInputs.length ≤ 100 ∧
    (Feedback.runFCOps ops).responseHistory.length ≤ 100 ∧
    (fc.matchedInputs.length < 100 →
      (Feedback.UpdateWithMatchedInput fc input).matchedInputs
        = fc.matchedInputs ++ [input]) ∧
    (fc.matchedInputs.length = 100 →
      (Feedback.UpdateWithMatchedInput fc input).matchedInputs
        = fc.matchedInputs.tail ++ [input]) ∧
    (fc.maxHistory = 100 → fc.responseHistory.length < 100 →
      (Feedback.UpdateWithResponse fc resp isMatch).responseHistory
        = fc.responseHistory ++ [Feedback.responseState resp isMatch]) ∧
    (fc.maxHistory = 100 → fc.responseHistory.length = 100 →
      (Feedback.UpdateWithResponse fc resp isMatch).responseHistory
        = fc.responseHistory.tail ++ [Feedback.responseState resp isMatch]) := by
  obtain ⟨hb1, hb2, hb3⟩ := foldl_FCOps_inv ops Feedback.NewFeedbackController rfl
    (by simp [Feedback.NewFeedbackController]) (by simp [Feedback.NewFeedbackController])
  refine ⟨hb2, hb3, ?_, ?_, ?_, ?_⟩
  · intro h
    simp only [Feedback.UpdateWithMatchedInput]
    rw [if_neg (by simp only [List.length_append, List.length_cons, List.length_nil]; omega)]
  · intro h
    simp only [Feedback.UpdateWithMatchedInput]
    rw [if_pos (by simp only [List.length_append, List.length_cons, List.length_nil]; omega)]
    exact tail_append_single _ _ (by intro hnil; rw [hnil] at h; simp at h)
  · intro hm h
    simp only [Feedback.UpdateWithResponse]
    rw [if_neg (by simp only [List.length_append, List.length_cons, List.length_nil]; omega)]
  · intro hm h
    simp only [Feedback.UpdateWithResponse]
    rw [if_pos (by simp only [List.length_append, List.length_cons, List.length_nil]; omega)]
    exact tail_append_single _ _ (by intro hnil; rw [hnil] at h; simp at h)

/-- Witness for C5: the append behaviour on a fresh controller and the
eviction behaviour on a controller whose buffers hold exactly 100 entries. -/
theorem fifo_buffers_bounded_witness :
    (Feedback.UpdateWithMatchedInput Feedback.NewFeedbackController
        [("FUZZ", "test")]).matchedInputs
      = Feedback.NewFeedbackController.matchedInputs ++ [[("FUZZ", "test")]] ∧
    (Feedback.UpdateWithMatchedInput
        { chain := RawMarkov.NewMarkovChain,
          matchedInputs := List.replicate 100 [("FUZZ", "old")],
          responseHistory := List.replicate 100 RawMarkov.zeroState,
          maxHistory := 100 }
        [("FUZZ", "new")]).matchedInputs
      = (List.replicate 100 [("FUZZ", "old")] :
          List Feedback.InputMap).tail ++ [[("FUZZ", "new")]] ∧
    (Feedback.UpdateWithResponse
        { chain := RawMarkov.NewMarkovChain,
          matchedInputs := List.replicate 100 [("FUZZ", "old")],
          responseHistory := List.replicate 100 RawMarkov.zeroState,
          maxHistory := 100 }
        { StatusCode := 200, ContentLength := 100, ContentWords := 20,
          ContentLines := 10, Duration := 50 } true).responseHistory
      = (List.replicate 100 RawMarkov.zeroState).tail ++
          [Feedback.responseState
            { StatusCode := 200, ContentLength := 100, ContentWords := 20,
              ContentLines := 10, Duration := 50 } true] := by
  refine ⟨?_, ?_, ?_⟩
  · exact (fifo_buffers_bounded [] Feedback.NewFeedbackController
      [("FUZZ", "test")]
      { StatusCode := 200, ContentLength := 100, ContentWords := 20,
        ContentLines := 10, Duration := 50 } true).2.2.1
      (by simp [Feedback.NewFeedbackController])
  · exact (fifo_buffers_bounded []
      { chain := RawMarkov.NewMarkovChain,
        matchedInputs := List.replicate 100 [("FUZZ", "old")],
        responseHistory := List.replicate 100 RawMarkov.zeroState,
        maxHistory := 100 }
      [("FUZZ", "new")]
      { StatusCode := 200, ContentLength := 100, ContentWords := 20,
        ContentLines := 10, Duration := 50 } true).2.2.2.1
      (by simp)
  · exact (fifo_buffers_bounded []
      { chain := RawMarkov.NewMarkovChain,
        matchedInputs := List.replicate 100 [("FUZZ", "old")],
        responseHistory := List.replicate 100 RawMarkov.zeroState,
        maxHistory := 100 }
      [("FUZZ", "new")]
      { StatusCode := 200, ContentLength := 100, ContentWords := 20,
        ContentLines := 10, Duration := 50 } true).2.2.2.2.2
      rfl (by simp)

end FifoLemmas

section SelectLemmas

theorem getWeightedIndex_lt (n : Nat) (u : ℚ) (hn : 0 < n) (h0 : 0 ≤ u) (h1 : u < 1) :
    (Feedback.getWeightedIndex n u).toNat < n := by
  unfold Feedback.getWeightedIndex
  rw [if_neg (by omega)]
  have hsq1 : u ^ 2 < 1 := pow_lt_one₀ h0 h1 (by omega)
  have hle : u ^ 2 * ((n - 1 : Nat) : ℚ) ≤ ((n - 1 : Nat) : ℚ) :=
    mul_le_of_le_one_left (Nat.cast_nonneg _) (le_of_lt hsq1)
  have hfloor : Int.floor (u ^ 2 * ((n - 1 : Nat) : ℚ)) ≤ ((n - 1 : Nat) : Int) := by
    have := Int.floor_le_floor hle
    rwa [Int.floor_natCast] at this
  have := Int.toNat_le.mpr hfloor
  omega

/-- C6: with empty matched-input memory, `GetNextInput` returns
(nil, usedFeedback = false) whatever the history and the random draws; with
non-empty memory and fewer than two history entries the exploit gate falls
back to true, so `GetNextInput` returns one of the stored matched inputs with
usedFeedback = true. -/
theorem getNextInput_gate (fc : Feedback.FeedbackController)
    (base : Feedback.InputMap) (u1 u2 : ℚ) :
    (fc.matchedInputs = [] → Feedback.GetNextInput fc base u1 u2 = (none, false)) ∧
    (fc.matchedInputs ≠ [] → fc.responseHistory.length < 2 → 0 ≤ u2 → u2 < 1 →
      (Feedback.GetNextInput fc base u1 u2).2 = true ∧
      ∃ x ∈ fc.matchedInputs, (Feedback.GetNextInput fc base u1 u2).1 = some x) := by
  constructor
  · intro hempty
    simp [Feedback.GetNextInput, hempty]
  · intro hne hhist hu0 hu1
    have hn : 0 < fc.matchedInputs.length := List.length_pos.mpr hne
    have hshould : Feedback.shouldUseMatchedInput fc u1 = true := by
      simp [Feedback.shouldUseMatchedInput, if_pos hhist, hn]
    have hcond : 0 < fc.matchedInputs.length ∧
        Feedback.shouldUseMatchedInput fc u1 = true := ⟨hn, hshould⟩
    have hidx := getWeightedIndex_lt fc.matchedInputs.length u2 hn hu0 hu1
    refine ⟨by simp [Feedback.GetNextInput, hcond], ?_⟩
    refine ⟨fc.matchedInputs.getD
      (Feedback.getWeightedIndex fc.matchedInputs.length u2).toNat [], ?_, ?_⟩
    · rw [List.getD_eq_getElem?_getD, List.getElem?_eq_getElem hidx]
      simp only [Option.getD_some]
      exact List.getElem_mem hidx
    · simp [Feedback.GetNextInput, hcond, Feedback.selectAndModifyInput,
        Feedback.selectFromMatchedInputs, Nat.pos_iff_ne_zero.mp hn]

/-- Witness for C6: a fresh empty memory yields (none, false); a memory with
one stored input and empty history yields that input with usedFeedback true,
at the concrete draws u1 = 0, u2 = 1/2. -/
theorem getNextInput_gate_witness :
    Feedback.GetNextInput
        { chain := RawMarkov.NewMarkovChain, matchedInputs := [],
          responseHistory := [], maxHistory := 100 } [] 0 (1/2) = (none, false) ∧
    ((Feedback.GetNextInput
        { chain := RawMarkov.NewMarkovChain, matchedInputs := [[("FUZZ", "test")]],
          responseHistory := [], maxHistory := 100 } [] 0 (1/2)).2 = true ∧
      ∃ x ∈ ([[("FUZZ", "test")]] : List Feedback.InputMap),
        (Feedback.GetNextInput
          { chain := RawMarkov.NewMarkovChain, matchedInputs := [[("FUZZ", "test")]],
            responseHistory := [], maxHistory := 100 } [] 0 (1/2)).1 = some x) := by
  constructor
  · exact (getNextInput_gate
      { chain := RawMarkov.NewMarkovChain, matchedInputs := [],
        responseHistory := [], maxHistory := 100 } [] 0 (1/2)).1 rfl
  · exact (getNextInput_gate
      { chain := RawMarkov.NewMarkovChain, matchedInputs := [[("FUZZ", "test")]],
        responseHistory := [], maxHistory := 100 } [] 0 (1/2)).2
      (by simp) (by simp) (by norm_num) (by norm_num)

end SelectLemmas

section AnalyzeLemmas

theorem foldl_match_count (l : List RawMarkov.State) (c : Nat) :
    l.foldl (fun (c : Nat) st => if st.IsMatch then c + 1 else c) c
      = c + l.countP (fun st => st.IsMatch) := by
  induction l generalizing c with
  | nil => simp
  | cons st rest ih =>
    simp only [List.foldl, List.countP_cons]
    by_cases h : st.IsMatch
    · simp only [h, if_pos rfl]
      rw [ih]
      simp [h]
      omega
    · simp only [h]
      rw [if_neg (by simp [h]), ih]
      simp [h]

/-- Counterexample to C4 as stated: the same two-entry history analysed under
two legitimate iteration orders of the status-code map (both permutations of
the accumulated counts) yields two different top-status-code lists, so the
rollup is not a deterministic function of the history, and equal-frequency
codes are not ordered by first observation. -/
theorem analyze_order_dependent :
    ([((200 : Int), (1 : Nat)), (404, 1)]).Perm
      (Feedback.buildStatusCodes
        [{ StatusCode := 200, ContentLength := 0, ContentWords := 0,
           ContentLines := 0, Duration := 0, IsMatch := false },
         { StatusCode := 404, ContentLength := 0, ContentWords := 0,
           ContentLines := 0, Duration := 0, IsMatch := false }]) ∧
    ([((404 : Int), (1 : Nat)), (200, 1)]).Perm
      (Feedback.buildStatusCodes
        [{ StatusCode := 200, ContentLength := 0, ContentWords := 0,
           ContentLines := 0, Duration := 0, IsMatch := false },
         { StatusCode := 404, ContentLength := 0, ContentWords := 0,
           ContentLines := 0, Duration := 0, IsMatch := false }]) ∧
    Option.map Feedback.Analysis.top_status_codes
        (Feedback.AnalyzeResponsePatterns
          { chain := RawMarkov.NewMarkovChain, matchedInputs := [],
            responseHistory :=
              [{ StatusCode := 200, ContentLength := 0, ContentWords := 0,
                 ContentLines := 0, Duration := 0, IsMatch := false },
               { StatusCode := 404, ContentLength := 0, ContentWords := 0,
                 ContentLines := 0, Duration := 0, IsMatch := false }],
            maxHistory := 100 } [(200, 1), (404, 1)])
      ≠ Option.map Feedback.Analysis.top_status_codes
        (Feedback.AnalyzeResponsePatterns
          { chain := RawMarkov.NewMarkovChain, matchedInputs := [],
            responseHistory :=
              [{ StatusCode := 200, ContentLength := 0, ContentWords := 0,
                 ContentLines := 0, Duration := 0, IsMatch := false },
               { StatusCode := 404, ContentLength := 0, ContentWords := 0,
                 ContentLines := 0, Duration := 0, IsMatch := false }],
            maxHistory := 100 } [(404, 1), (200, 1)]) := by
  refine ⟨by decide, by decide, ?_⟩
  intro h
  simp only [Feedback.AnalyzeResponsePatterns] at h
  norm_num [Feedback.descCode, List.insertionSort, List.orderedInsert] at h

/-- C4 (corrected): the rollup reports total_responses = history length,
total_matches = number of matched entries, match_rate = matches / length; the
top-status-code list has min 5 (number of distinct codes) entries, is sorted
by frequency descending, and contains only observed codes — but the order of
equally frequent codes follows the map's unspecified iteration order; the
empty history yields the empty rollup and the operation never fails. -/
theorem analyze_rollup_properties (fc : Feedback.FeedbackController)
    (codesOrder : List (Int × Nat))
    (hperm : codesOrder.Perm (Feedback.buildStatusCodes fc.responseHistory)) :
    (fc.responseHistory = [] →
      Feedback.AnalyzeResponsePatterns fc codesOrder = none) ∧
    (fc.responseHistory ≠ [] →
      ∃ A, Feedback.AnalyzeResponsePatterns fc codesOrder = some A ∧
        A.total_responses = fc.responseHistory.length ∧
        A.total_matches = fc.responseHistory.countP (fun st => st.IsMatch) ∧
        A.match_rate = (fc.responseHistory.countP (fun st => st.IsMatch) : ℚ) /
          (fc.responseHistory.length : ℚ) ∧
        A.top_status_codes.length
          = min 5 (Feedback.buildStatusCodes fc.responseHistory).length ∧
        A.top_status_codes.Pairwise Feedback.descCode ∧
        (∀ p ∈ A.top_status_codes,
          p ∈ Feedback.buildStatusCodes fc.responseHistory)) := by
  constructor
  · intro h
    simp [Feedback.AnalyzeResponsePatterns, h]
  · intro hne
    have hlen : ¬ fc.responseHistory.length = 0 :=
      fun h => hne (List.length_eq_zero.mp h)
    simp only [Feedback.AnalyzeResponsePatterns, if_neg hlen]
    refine ⟨_, rfl, rfl, ?_, ?_, ?_, ?_, ?_⟩
    · show fc.responseHistory.foldl _ 0 = _
      rw [foldl_match_count]
      omega
    · show ((fc.responseHistory.foldl _ 0 : Nat) : ℚ) / _ = _
      rw [foldl_match_count]
      norm_num
    · show (List.take _ _).length = _
      have hl : (List.insertionSort Feedback.descCode codesOrder).length
          = (Feedback.buildStatusCodes fc.responseHistory).length := by
        rw [(List.perm_insertionSort Feedback.descCode codesOrder).length_eq,
          hperm.length_eq]
      simp only [List.length_take, List.length_insertionSort] at hl ⊢
      omega
    · show List.Pairwise Feedback.descCode (List.take _ _)
      exact List.Pairwise.sublist (List.take_sublist _ _)
        (List.sorted_insertionSort Feedback.descCode codesOrder)
    · intro p hp
      have hp1 : p ∈ List.insertionSort Feedback.descCode codesOrder :=
        List.mem_of_mem_take hp
      rw [List.mem_insertionSort] at hp1
      exact hperm.mem_iff.mp hp1

/-- Witness for C4: the spec's five-response example with match flags
[true, false, true, false, true] yields total_responses = 5,
total_matches = 3, match_rate = 3/5 = 0.6. -/
theorem analyze_rollup_properties_witness :
    ∃ A, Feedback.AnalyzeResponsePatterns
        { chain := RawMarkov.NewMarkovChain, matchedInputs := [],
          responseHistory :=
            [{ StatusCode := 200, ContentLength := 0, ContentWords := 0,
               ContentLines := 0, Duration := 0, IsMatch := true },
             { StatusCode := 404, ContentLength := 0, ContentWords := 0,
               ContentLines := 0, Duration := 0, IsMatch := false },
             { StatusCode := 200, ContentLength := 0, ContentWords := 0,
               ContentLines := 0, Duration := 0, IsMatch := true },
             { StatusCode := 404, ContentLength := 0, ContentWords := 0,
               ContentLines := 0, Duration := 0, IsMatch := false },
             { StatusCode := 200, ContentLength := 0, ContentWords := 0,
               ContentLines := 0, Duration := 0, IsMatch := true }],
          maxHistory := 100 }
        (Feedback.buildStatusCodes
          [{ StatusCode := 200, ContentLength := 0, ContentWords := 0,
             ContentLines := 0, Duration := 0, IsMatch := true },
           { StatusCode := 404, ContentLength := 0, ContentWords := 0,
             ContentLines := 0, Duration := 0, IsMatch := false },
           { StatusCode := 200, ContentLength := 0, ContentWords := 0,
             ContentLines := 0, Duration := 0, IsMatch := true },
           { StatusCode := 404, ContentLength := 0, ContentWords := 0,
             ContentLines := 0, Duration := 0, IsMatch := false },
           { StatusCode := 200, ContentLength := 0, ContentWords := 0,
             ContentLines := 0, Duration := 0, IsMatch := true }])
      = some A ∧
      A.total_responses = 5 ∧ A.total_matches = 3 ∧ A.match_rate = 3/5 := by
  obtain ⟨A, hA, h1, h2, h3, _⟩ := (analyze_rollup_properties
    { chain := RawMarkov.NewMarkovChain, matchedInputs := [],
      responseHistory :=
        [{ StatusCode := 200, ContentLength := 0, ContentWords := 0,
           ContentLines := 0, Duration := 0, IsMatch := true },
         { StatusCode := 404, ContentLength := 0, ContentWords := 0,
           ContentLines := 0, Duration := 0, IsMatch := false },
         { StatusCode := 200, ContentLength := 0, ContentWords := 0,
           ContentLines := 0, Duration := 0, IsMatch := true },
         { StatusCode := 404, ContentLength := 0, ContentWords := 0,
           ContentLines := 0, Duration := 0, IsMatch := false },
         { StatusCode := 200, ContentLength := 0, ContentWords := 0,
           ContentLines := 0, Duration := 0, IsMatch := true }],
      maxHistory := 100 } _ (List.Perm.refl _)).2 (by simp)
  refine ⟨A, hA, ?_, ?_, ?_⟩
  · rw [h1]; rfl
  · rw [h2]; rfl
  · rw [h3]; norm_num

end AnalyzeLemmas

section ProbabilityLemmas

theorem foldl_set_cons_skip {K β : Type} [DecidableEq K] (g : K × Nat → β)
    (counts : List (K × Nat)) (k : K) (a : β) (row : List (K × β))
    (h : ∀ p ∈ counts, p.1 ≠ k) :
    counts.foldl (fun r p => alistSet r p.1 (g p)) ((k, a) :: row)
      = (k, a) :: counts.foldl (fun r p => alistSet r p.1 (g p)) row := by
  induction counts generalizing row with
  | nil => rfl
  | cons q rest ih =>
    simp only [List.foldl]
    have hq : q.1 ≠ k := h q (by simp)
    have hks : ¬ (k = q.1) := fun hh => hq hh.symm
    rw [show alistSet ((k, a) :: row) q.1 (g q) = (k, a) :: alistSet row q.1 (g q) from by
      simp [alistSet, hks]]
    exact ih _ (fun p hp => h p (by simp [hp]))

theorem foldl_set_keys_eq {K β : Type} [DecidableEq K] (g : K × Nat → β)
    (counts : List (K × Nat)) :
    ∀ row : List (K × β),
      row.map Prod.fst = counts.map Prod.fst →
      (counts.map Prod.fst).Nodup →
      counts.foldl (fun r p => alistSet r p.1 (g p)) row
        = counts.map (fun p => (p.1, g p)) := by
  induction counts with
  | nil =>
    intro row hkeys _
    cases row with
    | nil => rfl
    | cons r0 row' => simp at hkeys
  | cons q rest ih =>
    intro row hkeys hnodup
    cases row with
    | nil => simp at hkeys
    | cons r0 row' =>
      obtain ⟨rk, rv⟩ := r0
      simp only [List.map, List.cons.injEq] at hkeys
      obtain ⟨h1, h2⟩ := hkeys
      simp only [List.map_cons] at hnodup
      rw [List.nodup_cons] at hnodup
      simp only [List.foldl]
      rw [show alistSet ((rk, rv) :: row') q.1 (g q) = (q.1, g q) :: row' from by
        simp [alistSet, h1]]
      rw [foldl_set_cons_skip g rest q.1 (g q) row'
        (fun p hp hpk => hnodup.1 (hpk ▸ List.mem_map_of_mem Prod.fst hp))]
      rw [ih row' h2 hnodup.2]
      rfl

theorem alistSet_ne_nil {K β : Type} [DecidableEq K] (m : List (K × β)) (k : K) (v : β) :
    alistSet m k v ≠ [] := by
  cases m with
  | nil => simp [alistSet]
  | cons p rest =>
    obtain ⟨k', v'⟩ := p
    by_cases h : k' = k <;> simp [alistSet, h]

theorem normRow_keys (c : List (String × Nat)) :
    (RawMarkov.normRow c).map Prod.fst = c.map Prod.fst := by
  simp [RawMarkov.normRow, List.map_map, Function.comp]

theorem rowTotal_eq_sum (m : List (String × Nat)) :
    RawMarkov.rowTotal m = (m.map Prod.snd).sum := by
  induction m with
  | nil => rfl
  | cons p rest ih =>
    obtain ⟨k, v⟩ := p
    rw [rowTotal_cons, ih]
    simp

theorem list_sum_div (l : List ℚ) (d : ℚ) :
    (l.map (fun x => x / d)).sum = l.sum / d := by
  induction l with
  | nil => simp
  | cons x rest ih => simp [ih, add_div]

theorem chainInv_new : RawMarkov.ChainInv RawMarkov.NewMarkovChain := by
  constructor
  · intro k; rfl
  · intro k counts h
    simp [RawMarkov.NewMarkovChain, alistGet] at h

theorem chainInv_updateTransition (mc : RawMarkov.MarkovChain)
    (cur next : RawMarkov.State) (hinv : RawMarkov.ChainInv mc) :
    RawMarkov.ChainInv (RawMarkov.UpdateTransition mc cur next) := by
  obtain ⟨hT, hC⟩ := hinv
  simp only [RawMarkov.UpdateTransition, RawMarkov.updateProbabilities]
  set ck := cur.string
  set nk := next.string
  set counts0 := (alistGet mc.StateCounts ck).getD [] with hc0
  set counts1 := alistIncr counts0 nk with hc1
  rw [alistGet_set_self]
  simp only [Option.getD_some]
  rw [if_neg (by rw [rowTotal_alistIncr]; omega)]
  -- the new probability row equals the normalised new count row
  have hrowkeys : ((alistGet mc.Transitions ck).getD []).map Prod.fst
      = counts0.map Prod.fst := by
    rw [hT ck]
    cases hsc : alistGet mc.StateCounts ck with
    | none => rw [hc0, hsc]; rfl
    | some c => rw [hc0, hsc]; simp [normRow_keys]
  have hnodup0 : (counts0.map Prod.fst).Nodup := by
    cases hsc : alistGet mc.StateCounts ck with
    | none => rw [hc0, hsc]; simp
    | some c => rw [hc0, hsc]; exact (hC ck c hsc).2.1
  have hge0 : ∀ p ∈ counts0, 1 ≤ p.2 := by
    cases hsc : alistGet mc.StateCounts ck with
    | none => rw [hc0, hsc]; simp
    | some c => rw [hc0, hsc]; exact (hC ck c hsc).2.2
  have hrow1 : counts1.foldl
      (fun r p => alistSet r p.1 ((p.2 : ℚ) / (RawMarkov.rowTotal counts1 : ℚ)))
      ((alistGet mc.Transitions ck).getD [])
        = RawMarkov.normRow counts1 := by
    by_cases hnk : (alistGet counts0 nk).isSome
    · have hkeys1 : counts1.map Prod.fst = counts0.map Prod.fst :=
        alistSet_keys_of_mem counts0 nk _ hnk
      rw [foldl_set_keys_eq _ counts1 _ (by rw [hrowkeys, hkeys1]) (by rw [hkeys1]; exact hnodup0)]
      rfl
    · have hnone : alistGet counts0 nk = none := Option.not_isSome_iff_eq_none.mp hnk
      have hnotin : ∀ p ∈ counts0, p.1 ≠ nk := (alistGet_eq_none_iff counts0 nk).mp hnone
      have happ : counts1 = counts0 ++ [(nk, 1)] := by
        rw [hc1, alistIncr, hnone]
        exact alistSet_append_of_not_mem counts0 nk _ hnotin
      rw [happ, List.foldl_append]
      rw [foldl_set_keys_eq _ counts0 _ hrowkeys hnodup0]
      simp only [List.foldl]
      rw [alistSet_append_of_not_mem _ nk _ (by
        intro p hp
        obtain ⟨q, hq, hqe⟩ := List.mem_map.mp hp
        rw [← hqe]
        exact hnotin q hq)]
      simp [RawMarkov.normRow, happ]
  constructor
  · intro k
    by_cases hk : k = ck
    · subst hk
      rw [alistGet_set_self, alistGet_set_self, hrow1]
      rfl
    · rw [alistGet_set_ne _ _ _ _ (fun hh => hk hh.symm),
        alistGet_set_ne _ _ _ _ (fun hh => hk hh.symm)]
      exact hT k
  · intro k counts h
    by_cases hk : k = ck
    · subst hk
      rw [alistGet_set_self] at h
      injection h with h
      subst h
      refine ⟨by rw [hc1, alistIncr]; exact alistSet_ne_nil _ _ _, ?_, ?_⟩
      · by_cases hnk : (alistGet counts0 nk).isSome
        · rw [show counts1.map Prod.fst = counts0.map Prod.fst from
            alistSet_keys_of_mem counts0 nk _ hnk]
          exact hnodup0
        · have hnone : alistGet counts0 nk = none := Option.not_isSome_iff_eq_none.mp hnk
          have hnotin : ∀ p ∈ counts0, p.1 ≠ nk := (alistGet_eq_none_iff counts0 nk).mp hnone
          have happ : counts1 = counts0 ++ [(nk, 1)] := by
            rw [hc1, alistIncr, hnone]
            exact alistSet_append_of_not_mem counts0 nk _ hnotin
          rw [happ]
          simp only [List.map_append, List.map_cons, List.map_nil]
          rw [List.nodup_append]
          refine ⟨hnodup0, by simp, ?_⟩
          intro a ha
          simp only [List.mem_singleton]
          intro he
          obtain ⟨q, hq, hqe⟩ := List.mem_map.mp ha
          exact hnotin q hq (by rw [hqe, he])
      · intro p hp
        rcases mem_alistSet counts0 nk _ p hp with h | h
        · rw [h]; omega
        · exact hge0 p h
    · rw [alistGet_set_ne _ _ _ _ (fun hh => hk hh.symm)] at h
      exact hC k counts h

theorem chainInv_updateChain (mc : RawMarkov.MarkovChain) (s : RawMarkov.State)
    (hinv : RawMarkov.ChainInv mc) :
    RawMarkov.ChainInv (RawMarkov.UpdateChain mc s) := by
  simp only [RawMarkov.UpdateChain]
  cases h : mc.History.getLast? with
  | none => exact hinv
  | some prev => exact chainInv_updateTransition mc prev s hinv

theorem chainInv_runRawOps (ops : List RawMarkov.RawOp) :
    RawMarkov.ChainInv (RawMarkov.runRawOps ops) := by
  have main : ∀ (l : List RawMarkov.RawOp) (mc : RawMarkov.MarkovChain),
      RawMarkov.ChainInv mc → RawMarkov.ChainInv (l.foldl RawMarkov.applyRawOp mc) := by
    intro l
    induction l with
    | nil => exact fun mc h => h
    | cons op rest ih =>
      intro mc h
      refine ih _ ?_
      cases op with
      | trans cur next => exact chainInv_updateTransition mc cur next h
      | chain newState => exact chainInv_updateChain mc newState h
  exact main ops RawMarkov.NewMarkovChain chainInv_new

/-- C10: after any sequence of `UpdateChain`/`UpdateTransition` calls on the
raw-state chain, `GetTransitionProbability(s, t)` equals the recorded count of
s→t transitions divided by the total count of transitions out of s; it is 0.0
for an unseen from-state (and for an unseen pair, whose count defaults to 0);
and the probabilities out of every observed from-state sum to 1. -/
theorem transitionProbability_ratio (ops : List RawMarkov.RawOp)
    (s t : RawMarkov.State) :
    (∀ counts, alistGet (RawMarkov.runRawOps ops).StateCounts s.string = some counts →
        RawMarkov.GetTransitionProbability (RawMarkov.runRawOps ops) s t
          = (((alistGet counts t.string).getD 0 : Nat) : ℚ) /
              (RawMarkov.rowTotal counts : ℚ)) ∧
    (alistGet (RawMarkov.runRawOps ops).StateCounts s.string = none →
        RawMarkov.GetTransitionProbability (RawMarkov.runRawOps ops) s t = 0) ∧
    (∀ counts, alistGet (RawMarkov.runRawOps ops).StateCounts s.string = some counts →
        ((((alistGet (RawMarkov.runRawOps ops).Transitions s.string).getD []).map
            Prod.snd).sum = 1)) := by
  obtain ⟨hT, hC⟩ := chainInv_runRawOps ops
  refine ⟨?_, ?_, ?_⟩
  · intro counts h
    unfold RawMarkov.GetTransitionProbability
    rw [hT s.string, h]
    simp only [Option.map_some']
    show (alistGet (RawMarkov.normRow counts) t.string).getD 0 = _
    rw [RawMarkov.normRow,
      alistGet_map counts t.string (fun v => (v : ℚ) / (RawMarkov.rowTotal counts : ℚ))]
    cases hv : alistGet counts t.string with
    | none => simp
    | some v => simp
  · intro h
    unfold RawMarkov.GetTransitionProbability
    rw [hT s.string, h]
    rfl
  · intro counts h
    obtain ⟨hne, _, hge⟩ := hC s.string counts h
    rw [hT s.string, h]
    simp only [Option.map_some', Option.getD_some]
    rw [RawMarkov.normRow]
    have hmaps : ((counts.map fun p =>
        (p.1, (p.2 : ℚ) / (RawMarkov.rowTotal counts : ℚ))).map Prod.snd)
          = (counts.map fun p => (p.2 : ℚ)).map
              (fun x => x / (RawMarkov.rowTotal counts : ℚ)) := by
      simp [List.map_map, Function.comp]
    rw [hmaps, list_sum_div]
    have hsum : (counts.map fun p => (p.2 : ℚ)).sum
        = ((RawMarkov.rowTotal counts : Nat) : ℚ) := by
      rw [rowTotal_eq_sum, Nat.cast_list_sum, List.map_map]
      rfl
    rw [hsum]
    have hpos : 0 < RawMarkov.rowTotal counts := by
      cases counts with
      | nil => exact absurd rfl hne
      | cons p rest =>
        rw [rowTotal_cons]
        have := hge p (by simp)
        omega
    exact div_self (by exact_mod_cast Nat.pos_iff_ne_zero.mp hpos)

/-- Witness for C10: after a single recorded transition from a 200 state to a
404 state, its probability is count/total = 1/1 and the probabilities out of
the 200 state sum to 1. -/
theorem transitionProbability_ratio_witness :
    RawMarkov.GetTransitionProbability
        (RawMarkov.runRawOps
          [RawMarkov.RawOp.trans
            { StatusCode := 200, ContentLength := 0, ContentWords := 0,
              ContentLines := 0, Duration := 0, IsMatch := false }
            { StatusCode := 404, ContentLength := 0, ContentWords := 0,
              ContentLines := 0, Duration := 0, IsMatch := false }])
        { StatusCode := 200, ContentLength := 0, ContentWords := 0,
          ContentLines := 0, Duration := 0, IsMatch := false }
        { StatusCode := 404, ContentLength := 0, ContentWords := 0,
          ContentLines := 0, Duration := 0, IsMatch := false }
      = (((1 : Nat) : ℚ) / ((1 : Nat) : ℚ)) ∧
    ((((alistGet (RawMarkov.runRawOps
          [RawMarkov.RawOp.trans
            { StatusCode := 200, ContentLength := 0, ContentWords := 0,
              ContentLines := 0, Duration := 0, IsMatch := false }
            { StatusCode := 404, ContentLength := 0, ContentWords := 0,
              ContentLines := 0, Duration := 0, IsMatch := false }]).Transitions
        ({ StatusCode := 200, ContentLength := 0, ContentWords := 0,
           ContentLines := 0, Duration := 0, IsMatch := false } :
             RawMarkov.State).string).getD []).map Prod.snd).sum = 1) := by
  constructor
  · have h := (transitionProbability_ratio
      [RawMarkov.RawOp.trans
        { StatusCode := 200, ContentLength := 0, ContentWords := 0,
          ContentLines := 0, Duration := 0, IsMatch := false }
        { StatusCode := 404, ContentLength := 0, ContentWords := 0,
          ContentLines := 0, Duration := 0, IsMatch := false }]
      { StatusCode := 200, ContentLength := 0, ContentWords := 0,
        ContentLines := 0, Duration := 0, IsMatch := false }
      { StatusCode := 404, ContentLength := 0, ContentWords := 0,
        ContentLines := 0, Duration := 0, IsMatch := false }).1
      [(({ StatusCode := 404, ContentLength := 0, ContentWords := 0,
           ContentLines := 0, Duration := 0, IsMatch := false } :
             RawMarkov.State).string, 1)] (by rfl)
    rw [h]
    rfl
  · exact (transitionProbability_ratio
      [RawMarkov.RawOp.trans
        { StatusCode := 200, ContentLength := 0, ContentWords := 0,
          ContentLines := 0, Duration := 0, IsMatch := false }
        { StatusCode := 404, ContentLength := 0, ContentWords := 0,
          ContentLines := 0, Duration := 0, IsMatch := false }]
      { StatusCode := 200, ContentLength := 0, ContentWords := 0,
        ContentLines := 0, Duration := 0, IsMatch := false }
      { StatusCode := 404, ContentLength := 0, ContentWords := 0,
        ContentLines := 0, Duration := 0, IsMatch := false }).2.2
      [(({ StatusCode := 404, ContentLength := 0, ContentWords := 0,
           ContentLines := 0, Duration := 0, IsMatch := false } :
             RawMarkov.State).string, 1)] (by rfl)

end ProbabilityLemmas

section RankingLemmas

theorem count_set_aux {α : Type} [DecidableEq α] (x : α) (l : List α) (n : Nat) (a b : α)
    (h : l.get? n = some a) :
    List.count x (l.set n b) + (if a = x then 1 else 0)
      = List.count x l + (if b = x then 1 else 0) := by
  induction l generalizing n with
  | nil => simp at h
  | cons c t ih =>
    cases n with
    | zero =>
      simp only [List.get?] at h
      injection h with h
      subst h
      simp only [List.set, List.count_cons]
      split_ifs <;> simp_all
    | succ m =>
      simp only [List.get?] at h
      have hm := ih m h
      simp only [List.set, List.count_cons]
      split_ifs <;> simp_all

theorem listSwap_perm {α : Type} [DecidableEq α] (l : List α) (i j : Nat) :
    (QMarkov.listSwap l i j).Perm l := by
  unfold QMarkov.listSwap
  cases h1 : l.get? i with
  | none => cases l.get? j <;> exact List.Perm.refl l
  | some a =>
    cases h2 : l.get? j with
    | none => exact List.Perm.refl l
    | some b =>
      show ((l.set i b).set j a).Perm l
      rw [List.perm_iff_count]
      intro x
      have hj : (l.set i b).get? j = some b := by
        by_cases he : i = j
        · subst he
          rw [List.get?_set_eq, h1]
          rfl
        · rw [List.get?_set_ne _ _ he, h2]
      have c1 := count_set_aux x (l.set i b) j b a hj
      have c2 := count_set_aux x l i a b h1
      split_ifs at c1 c2 <;> omega

theorem shuffleAux_perm (l : List String) (k : Nat) :
    (QMarkov.shuffleAux l k).Perm l := by
  induction k generalizing l with
  | zero => exact List.Perm.refl l
  | succ m ih =>
    exact (ih _).trans (listSwap_perm l (Nat.succ m) ((Nat.succ m * 31) % l.length))

theorem shuffleStrings_perm (l : List String) :
    (QMarkov.shuffleStrings l).Perm l :=
  shuffleAux_perm l (l.length - 1)

theorem containsString_iff (l : List String) (x : String) :
    QMarkov.containsString l x = true ↔ x ∈ l := by
  simp [QMarkov.containsString, List.any_eq_true]

theorem getRandomSubset_length (slice : List String) (n : Nat) :
    (QMarkov.getRandomSubset slice n).length = min n slice.length := by
  unfold QMarkov.getRandomSubset
  split_ifs with h
  · omega
  · rw [List.length_take, (shuffleStrings_perm slice).length_eq]

theorem getRandomSubset_nodup (slice : List String) (n : Nat) (h : slice.Nodup) :
    (QMarkov.getRandomSubset slice n).Nodup := by
  unfold QMarkov.getRandomSubset
  split_ifs with hlen
  · exact h
  · exact List.Nodup.sublist (List.take_sublist _ _)
      ((shuffleStrings_perm slice).nodup_iff.mpr h)

theorem getRandomSubset_subset (slice : List String) (n : Nat) :
    ∀ x ∈ QMarkov.getRandomSubset slice n, x ∈ slice := by
  unfold QMarkov.getRandomSubset
  split_ifs with hlen
  · exact fun x hx => hx
  · intro x hx
    exact (shuffleStrings_perm slice).mem_iff.mp (List.mem_of_mem_take hx)

theorem length_filter_bnot {α : Type} (p : α → Bool) (l : List α) :
    (l.filter (fun a => ! p a)).length + (l.filter p).length = l.length := by
  induction l with
  | nil => rfl
  | cons a t ih => by_cases h : p a <;> simp [List.filter, h] <;> omega

theorem fill_append_facts (result wordlist : List String) (n : Nat)
    (hw : wordlist.Nodup) (hres : result.Nodup)
    (hsub : ∀ x ∈ result, x ∈ wordlist) (hk : result.length ≤ n) :
    (result ++ (QMarkov.shuffleStrings
        (wordlist.filter (fun w => ! QMarkov.containsString result w))).take
          (n - result.length)).length = min n wordlist.length ∧
    (result ++ (QMarkov.shuffleStrings
        (wordlist.filter (fun w => ! QMarkov.containsString result w))).take
          (n - result.length)).Nodup ∧
    (∀ x ∈ result ++ (QMarkov.shuffleStrings
        (wordlist.filter (fun w => ! QMarkov.containsString result w))).take
          (n - result.length), x ∈ wordlist) := by
  have hfilperm : (wordlist.filter
      (fun w => QMarkov.containsString result w)).Perm result := by
    refine (List.perm_ext_iff_of_nodup (hw.filter _) hres).mpr ?_
    intro a
    rw [List.mem_filter]
    constructor
    · exact fun h => (containsString_iff result a).mp h.2
    · exact fun ha => ⟨hsub a ha, (containsString_iff result a).mpr ha⟩
  have hcount := length_filter_bnot (fun w => QMarkov.containsString result w) wordlist
  rw [hfilperm.length_eq] at hcount
  have hshlen : (QMarkov.shuffleStrings
      (wordlist.filter (fun w => ! QMarkov.containsString result w))).length
        = wordlist.length - result.length := by
    rw [(shuffleStrings_perm _).length_eq]
    omega
  refine ⟨?_, ?_, ?_⟩
  · rw [List.length_append, List.length_take, hshlen]
    omega
  · rw [List.nodup_append]
    refine ⟨hres, ?_, ?_⟩
    · exact List.Nodup.sublist (List.take_sublist _ _)
        ((shuffleStrings_perm _).nodup_iff.mpr (hw.filter _))
    · intro a ha hb
      have h1 : a ∈ wordlist.filter (fun w => ! QMarkov.containsString result w) :=
        (shuffleStrings_perm _).mem_iff.mp (List.mem_of_mem_take hb)
      have h2 := (List.mem_filter.mp h1).2
      have h3 := (containsString_iff result a).mpr ha
      simp only [Bool.not_eq_true'] at h2
      rw [h3] at h2
      cases h2
  · intro x hx
    rcases List.mem_append.mp hx with h | h
    · exact hsub x h
    · have h1 : x ∈ wordlist.filter (fun w => ! QMarkov.containsString result w) :=
        (shuffleStrings_perm _).mem_iff.mp (List.mem_of_mem_take h)
      exact (List.mem_filter.mp h1).1

/-- C3 (corrected): `GetBestActionsForState` always returns
min(topN, len(candidates)) distinct entries drawn from the candidate list when
the candidates are distinct; the ranked segment is sorted descending by
Q-value, with equal Q-values ordered by the Q-table map's iteration order
(which Go leaves unspecified), not by first-seen order in `AvailableActions`;
random filling is realised by the source's deterministic pseudo-shuffle. -/
theorem getBestActions_ranking_properties (mc : QMarkov.MarkovChain)
    (state : QMarkov.State) (wordlist : List String) (n : Nat)
    (rowOrder : List (String × ℚ))
    (hw : wordlist.Nodup)
    (hkeys : (rowOrder.map Prod.fst).Nodup)
    (_hrow : ∀ row, alistGet mc.QTable state.Hash = some row → rowOrder.Perm row) :
    (QMarkov.GetBestActionsForState mc state wordlist n rowOrder).length
        = min n wordlist.length ∧
    (QMarkov.GetBestActionsForState mc state wordlist n rowOrder).Nodup ∧
    (∀ x ∈ QMarkov.GetBestActionsForState mc state wordlist n rowOrder, x ∈ wordlist) ∧
    ((List.insertionSort QMarkov.descPair
        (rowOrder.filter (fun p => QMarkov.containsString wordlist p.1))).take n).Pairwise
      QMarkov.descPair := by
  have hpair : ((List.insertionSort QMarkov.descPair
      (rowOrder.filter (fun p => QMarkov.containsString wordlist p.1))).take n).Pairwise
        QMarkov.descPair :=
    List.Pairwise.sublist (List.take_sublist _ _)
      (List.sorted_insertionSort QMarkov.descPair _)
  cases halist : alistGet mc.QTable state.Hash with
  | none =>
    simp only [QMarkov.GetBestActionsForState, halist]
    exact ⟨getRandomSubset_length wordlist n, getRandomSubset_nodup wordlist n hw,
      getRandomSubset_subset wordlist n, hpair⟩
  | some row =>
    simp only [QMarkov.GetBestActionsForState, halist]
    by_cases hAV :
        (rowOrder.filter (fun p => QMarkov.containsString wordlist p.1)).length = 0
    · rw [if_pos hAV]
      exact ⟨getRandomSubset_length wordlist n, getRandomSubset_nodup wordlist n hw,
        getRandomSubset_subset wordlist n, hpair⟩
    · rw [if_neg hAV]
      -- facts about the ranked segment
      have hAVkeys : ((rowOrder.filter
          (fun p => QMarkov.containsString wordlist p.1)).map Prod.fst).Nodup :=
        List.Nodup.sublist (List.Sublist.map Prod.fst (List.filter_sublist _)) hkeys
      have hsortperm := List.perm_insertionSort QMarkov.descPair
        (rowOrder.filter (fun p => QMarkov.containsString wordlist p.1))
      have hsortkeys : ((List.insertionSort QMarkov.descPair
          (rowOrder.filter (fun p => QMarkov.containsString wordlist p.1))).map
            Prod.fst).Nodup :=
        ((hsortperm.map Prod.fst).nodup_iff).mpr hAVkeys
      have hresnodup : (((List.insertionSort QMarkov.descPair
          (rowOrder.filter (fun p => QMarkov.containsString wordlist p.1))).take n).map
            Prod.fst).Nodup := by
        rw [List.map_take]
        exact List.Nodup.sublist (List.take_sublist _ _) hsortkeys
      have hressub : ∀ x ∈ ((List.insertionSort QMarkov.descPair
          (rowOrder.filter (fun p => QMarkov.containsString wordlist p.1))).take n).map
            Prod.fst, x ∈ wordlist := by
        intro x hx
        rw [List.map_take] at hx
        have hx1 : x ∈ (List.insertionSort QMarkov.descPair
            (rowOrder.filter (fun p => QMarkov.containsString wordlist p.1))).map
              Prod.fst := List.mem_of_mem_take hx
        have hx2 : x ∈ (rowOrder.filter
            (fun p => QMarkov.containsString wordlist p.1)).map Prod.fst :=
          ((hsortperm.map Prod.fst).mem_iff).mp hx1
        obtain ⟨p, hp, hpe⟩ := List.mem_map.mp hx2
        rw [← hpe]
        exact (containsString_iff wordlist p.1).mp (List.mem_filter.mp hp).2
      have hreslen : (((List.insertionSort QMarkov.descPair
          (rowOrder.filter (fun p => QMarkov.containsString wordlist p.1))).take n).map
            Prod.fst).length
          = min n (rowOrder.filter
              (fun p => QMarkov.containsString wordlist p.1)).length := by
        rw [List.length_map, List.length_take, hsortperm.length_eq]
      have hAVle : (rowOrder.filter
          (fun p => QMarkov.containsString wordlist p.1)).length ≤ wordlist.length := by
        have hsub : ((rowOrder.filter
            (fun p => QMarkov.containsString wordlist p.1)).map Prod.fst) ⊆ wordlist := by
          intro x hx
          obtain ⟨p, hp, hpe⟩ := List.mem_map.mp hx
          rw [← hpe]
          exact (containsString_iff wordlist p.1).mp (List.mem_filter.mp hp).2
        have := (List.Nodup.subperm hAVkeys hsub).length_le
        simpa using this
      by_cases hfill : (((List.insertionSort QMarkov.descPair
          (rowOrder.filter (fun p => QMarkov.containsString wordlist p.1))).take n).map
            Prod.fst).length < n
      · rw [if_pos hfill]
        obtain ⟨hl, hn, hs⟩ := fill_append_facts
          (((List.insertionSort QMarkov.descPair
            (rowOrder.filter (fun p => QMarkov.containsString wordlist p.1))).take n).map
              Prod.fst) wordlist n hw hresnodup hressub (le_of_lt hfill)
        exact ⟨hl, hn, hs, hpair⟩
      · rw [if_neg hfill]
        refine ⟨?_, hresnodup, hressub, hpair⟩
        rw [hreslen] at hfill ⊢
        omega

/-- Counterexample to C3 as stated: on a chain holding two actions with equal
Q-value 1/10 whose first-seen order in `AvailableActions` is ["alpha",
"beta"], a legitimate iteration order of the Q-table row (a permutation of
the stored row) makes `GetBestActionsForState` return ["beta", "alpha"] — not
the ["alpha", "beta"] that the claimed deterministic first-seen tie-break
demands. -/
theorem getBestActions_tiebreak_counterexample :
    ([(("beta" : String), (1 : ℚ)/10), ("alpha", 1/10)]).Perm
      [(("alpha" : String), (1 : ℚ)/10), ("beta", 1/10)] ∧
    alistGet tieChain.QTable
        (QMarkov.State.Hash { CodeClass := "4xx", SizeBucket := "0", Depth := 0 })
      = some [("alpha", 1/10), ("beta", 1/10)] ∧
    alistGet tieChain.AvailableActions
        (QMarkov.State.Hash { CodeClass := "4xx", SizeBucket := "0", Depth := 0 })
      = some ["alpha", "beta"] ∧
    QMarkov.GetBestActionsForState tieChain
        { CodeClass := "4xx", SizeBucket := "0", Depth := 0 }
        ["alpha", "beta"] 2 [("beta", 1/10), ("alpha", 1/10)]
      = ["beta", "alpha"] ∧
    (["beta", "alpha"] : List String) ≠ ["alpha", "beta"] := by
  refine ⟨List.Perm.swap _ _ _, rfl, rfl, ?_, by decide⟩
  norm_num [QMarkov.GetBestActionsForState, tieChain, alistGet,
    QMarkov.containsString, List.insertionSort, List.orderedInsert,
    QMarkov.descPair, QMarkov.State.Hash]

/-- Witness for C3 at a concrete input: the chain with two learned actions,
three candidates, topN = 2, and the stored row order. -/
theorem getBestActions_ranking_properties_witness :
    (QMarkov.GetBestActionsForState tieChain
        { CodeClass := "4xx", SizeBucket := "0", Depth := 0 }
        ["alpha", "beta", "gamma"] 2 [("alpha", 1/10), ("beta", 1/10)]).length
      = min 2 (["alpha", "beta", "gamma"] : List String).length ∧
    (QMarkov.GetBestActionsForState tieChain
        { CodeClass := "4xx", SizeBucket := "0", Depth := 0 }
        ["alpha", "beta", "gamma"] 2 [("alpha", 1/10), ("beta", 1/10)]).Nodup ∧
    (∀ x ∈ QMarkov.GetBestActionsForState tieChain
        { CodeClass := "4xx", SizeBucket := "0", Depth := 0 }
        ["alpha", "beta", "gamma"] 2 [("alpha", 1/10), ("beta", 1/10)],
      x ∈ (["alpha", "beta", "gamma"] : List String)) ∧
    ((List.insertionSort QMarkov.descPair
        (([(("alpha" : String), (1 : ℚ)/10), ("beta", 1/10)]).filter
          (fun p => QMarkov.containsString ["alpha", "beta", "gamma"] p.1))).take 2).Pairwise
      QMarkov.descPair :=
  getBestActions_ranking_properties tieChain
    { CodeClass := "4xx", SizeBucket := "0", Depth := 0 }
    ["alpha", "beta", "gamma"] 2 [("alpha", 1/10), ("beta", 1/10)]
    (by decide) (by decide)
    (by
      intro row h
      have h2 : some [(("alpha" : String), (1 : ℚ)/10), ("beta", 1/10)] = some row := by
        rw [← h]
        rfl
      injection h2 with h3
      rw [← h3])

end RankingLemmas
